import Mathlib

/-!
Shallow embedding of the seat-state tracker and shanten engine of
akochan-reviewer (file src/state.rs), together with proofs that settle the
specification claims about it.

Tiles are embedded as natural-number codes, following the rank layout the
engine relies on: the three suit blocks 11..19, 21..29, 31..39, the honor
block 41..47, and the three red-five variants 51, 52, 53 that normalize to
15, 25, 35.  The Tehai, Pai and convlog event types are not part of the
given sources, so they are modelled from the spec where noted; everything
else is translated directly from src/state.rs.
-/

set_option maxHeartbeats 1000000

/-- Modelled from the spec: the red-five normalization of the tile type
(the function Pai.as_unify_u8 of the missing convlog crate).  Red fives
carry codes 51, 52, 53 and normalize to the plain fives 15, 25, 35; every
other code is its own rank. -/
def unify (p : ℕ) : ℕ :=
  if p = 51 then 15 else if p = 52 then 25 else if p = 53 then 35 else p

/-- Modelled from the spec: validity of a tile code (success of the
fallible constructor Pai.try_from of the missing convlog crate).  There
are 34 unified kinds plus the three red-five variants; all other slots of
the rank space are intentionally unused. -/
def paiValid (i : ℕ) : Bool :=
  decide ((11 ≤ i ∧ i ≤ 19) ∨ (21 ≤ i ∧ i ≤ 29) ∨ (31 ≤ i ∧ i ≤ 39) ∨
    (41 ≤ i ∧ i ≤ 47) ∨ (51 ≤ i ∧ i ≤ 53))

/-- The thirteen terminal and honor kinds used by the kokushi evaluator:
the two end ranks of each suit plus the seven honors. -/
def orphanCodes : List ℕ := [11, 19, 21, 29, 31, 39, 41, 42, 43, 44, 45, 46, 47]

/-- The 34 unified tile kinds, in rank order. -/
def validCodes : List ℕ :=
  [11, 12, 13, 14, 15, 16, 17, 18, 19,
   21, 22, 23, 24, 25, 26, 27, 28, 29,
   31, 32, 33, 34, 35, 36, 37, 38, 39,
   41, 42, 43, 44, 45, 46, 47]

/-- The suit-block test used by the meld and proto-group scans of the
engine (the three range checks 11..18, 21..28, 31..38 in try_take_3 and
try_take_2 of src/state.rs). -/
def suit_range (i : ℕ) : Bool :=
  decide ((11 ≤ i ∧ i < 18) ∨ (21 ≤ i ∧ i < 28) ∨ (31 ≤ i ∧ i < 38))

/-- Modelled from the spec: a consumed-tile collection of the missing
convlog crate (Consumed2, Consumed3, Consumed4).  It is kept in sorted
order by its constructor so that equality of two collections is equality
as a set of tiles, as the promotion-matching rule of the spec requires. -/
structure Consumed where
  s : List ℕ
  sorted : s.Sorted (fun a b => a ≤ b)

/-- Modelled from the spec: the canonicalizing constructor of a
consumed-tile collection. -/
def Consumed.fromList (l : List ℕ) : Consumed :=
  ⟨l.insertionSort (fun a b => a ≤ b),
   List.sorted_insertionSort (fun a b => a ≤ b) l⟩

/-- The meld record (enum Fuuro of src/state.rs): the five ways tiles are
taken out of the concealed hand. -/
inductive Fuuro where
  | chi (target : ℕ) (pai : ℕ) (consumed : Consumed)
  | pon (target : ℕ) (pai : ℕ) (consumed : Consumed)
  | daiminkan (target : ℕ) (pai : ℕ) (consumed : Consumed)
  | kakan (pai : ℕ) (previous_pon_target : ℕ) (previous_pon_pai : ℕ) (consumed : Consumed)
  | ankan (consumed : Consumed)

/-- Fuuro.into_pais of src/state.rs: flattening of one meld record into
the ordered list of its tiles. -/
def Fuuro.into_pais : Fuuro → List ℕ
  | .chi _ pai c => pai :: c.s
  | .pon _ pai c => pai :: c.s
  | .daiminkan _ pai c => pai :: c.s
  | .kakan pai _ previous_pon_pai c => pai :: previous_pon_pai :: c.s
  | .ankan c => c.s

/-- Modelled from the spec: Tehai.haipai of the missing tehai module,
replacing the hand contents with the dealt tiles. -/
def Tehai.haipai (_t : List ℕ) (tiles : List ℕ) : List ℕ := tiles

/-- Modelled from the spec: Tehai.tsumo, appending the drawn tile. -/
def Tehai.tsumo (t : List ℕ) (p : ℕ) : List ℕ := t ++ [p]

/-- Modelled from the spec: Tehai.tsumogiri, removing the most recently
drawn tile without a value match. -/
def Tehai.tsumogiri (t : List ℕ) : List ℕ := t.dropLast

/-- Modelled from the spec: Tehai.tedashi, removing the first matching
concealed tile. -/
def Tehai.tedashi (t : List ℕ) (p : ℕ) : List ℕ := t.erase p

/-- Modelled from the spec: Tehai.remove_multiple, removing each listed
tile once. -/
def Tehai.remove_multiple (t : List ℕ) (ps : List ℕ) : List ℕ :=
  ps.foldl List.erase t

/-- Modelled from the spec: the typed game-event stream of the missing
convlog crate, restricted to the eight kinds recognized by State.update;
the constructor other stands for every unrecognized event kind. -/
inductive Event where
  | startKyoku (tehais : List (List ℕ))
  | tsumo (actor : ℕ) (pai : ℕ)
  | dahai (actor : ℕ) (pai : ℕ) (tsumogiri : Bool)
  | chi (actor : ℕ) (target : ℕ) (pai : ℕ) (consumed : Consumed)
  | pon (actor : ℕ) (target : ℕ) (pai : ℕ) (consumed : Consumed)
  | daiminkan (actor : ℕ) (target : ℕ) (pai : ℕ) (consumed : Consumed)
  | kakan (actor : ℕ) (pai : ℕ) (consumed : Consumed)
  | ankan (actor : ℕ) (consumed : Consumed)
  | other

/-- The per-seat state (struct State of src/state.rs): seat identifier,
concealed hand, and the ordered meld list. -/
structure State where
  actor : ℕ
  tehai : List ℕ
  fuuros : List Fuuro

/-- The enumerated find_map of the Kakan arm of State.update: locate the
first recorded Pon whose called tile together with its two consumed tiles
equals, as a set, the promotion event consumed tiles; returns its index
and fields. -/
def findPon (consumed : Consumed) : List Fuuro → ℕ → Option (ℕ × ℕ × ℕ × Consumed)
  | [], _ => none
  | .pon t p c :: rest, idx =>
      if (Consumed.fromList (p :: c.s)).s = consumed.s then some (idx, t, p, c)
      else findPon consumed rest (idx + 1)
  | _ :: rest, idx => findPon consumed rest (idx + 1)

/-- State.update of src/state.rs.  The returned Bool models the Result:
true for Ok, false for the invalid-state error of the Kakan arm.  As in
the source, the error path has already removed the called tile from the
hand when the missing-Pon error is reported. -/
def State.update (st : State) (event : Event) : State × Bool :=
  match event with
  | .startKyoku tehais =>
      ({ st with tehai := Tehai.haipai st.tehai (tehais.getD st.actor []),
                 fuuros := [] }, true)
  | .tsumo actor pai =>
      if actor = st.actor then ({ st with tehai := Tehai.tsumo st.tehai pai }, true)
      else (st, true)
  | .dahai actor pai tsumogiri =>
      if actor = st.actor then
        ({ st with tehai :=
            if tsumogiri then Tehai.tsumogiri st.tehai else Tehai.tedashi st.tehai pai }, true)
      else (st, true)
  | .chi actor target pai consumed =>
      if actor = st.actor then
        ({ st with tehai := Tehai.remove_multiple st.tehai consumed.s,
                   fuuros := st.fuuros ++ [Fuuro.chi target pai consumed] }, true)
      else (st, true)
  | .pon actor target pai consumed =>
      if actor = st.actor then
        ({ st with tehai := Tehai.remove_multiple st.tehai consumed.s,
                   fuuros := st.fuuros ++ [Fuuro.pon target pai consumed] }, true)
      else (st, true)
  | .daiminkan actor target pai consumed =>
      if actor = st.actor then
        ({ st with tehai := Tehai.remove_multiple st.tehai consumed.s,
                   fuuros := st.fuuros ++ [Fuuro.daiminkan target pai consumed] }, true)
      else (st, true)
  | .kakan actor pai consumed =>
      if actor = st.actor then
        let tehai1 := Tehai.tedashi st.tehai pai
        match findPon consumed st.fuuros 0 with
        | none => ({ st with tehai := tehai1 }, false)
        | some (idx, t, p, c) =>
            ({ st with tehai := tehai1,
                       fuuros := st.fuuros.set idx (Fuuro.kakan pai t p c) }, true)
      else (st, true)
  | .ankan actor consumed =>
      if actor = st.actor then
        ({ st with tehai := Tehai.remove_multiple st.tehai consumed.s,
                   fuuros := st.fuuros ++ [Fuuro.ankan consumed] }, true)
      else (st, true)
  | .other => (st, true)

/-- State.iter of src/state.rs (the PaiIterator): the concealed hand
followed by the flattened tiles of every meld record, in order. -/
def State.iterList (st : State) : List ℕ :=
  st.tehai ++ (st.fuuros.map Fuuro.into_pais).flatten

/-- The scratch state of the shanten engine (struct ShantenHelper of
src/state.rs): the 48-slot per-rank count array, the remaining-tile
cursor, the total-tile constant, and the take log.  The verbose flag and
the logging calls of the source are omitted, as the spec allows. -/
structure ShantenHelper where
  pais : List ℤ
  num_pais_rem : ℤ
  num_tehai : ℤ
  state : List (List ℕ)

/-- The counting loop of ShantenHelper.new: one pass over the tile list,
incrementing the slot of each unified tile code. -/
def countPais (tiles : List ℕ) : List ℤ :=
  tiles.foldl (fun a p => a.set (unify p) (a.getD (unify p) 0 + 1)) (List.replicate 48 0)

/-- ShantenHelper.new of src/state.rs: counts are built from the hand
tile list alone, and both cursors start at its length. -/
def ShantenHelper.new (tehai : List ℕ) : ShantenHelper :=
  { pais := countPais tehai,
    num_pais_rem := tehai.length,
    num_tehai := tehai.length,
    state := [] }

/-- One step of the counting loop of get_kokushi_shanten: the accumulator
is the pair of the kind counter and the pair-seen flag. -/
def kokushiStep (pais : List ℤ) (acc : ℤ × Bool) (idx : ℕ) : ℤ × Bool :=
  let num := pais.getD idx 0
  if num = 0 then acc
  else if paiValid idx then
    if idx ∈ orphanCodes then (acc.1 + 1, acc.2 || decide (1 < num)) else acc
  else acc

/-- ShantenHelper.get_kokushi_shanten of src/state.rs. -/
def ShantenHelper.get_kokushi_shanten (h : ShantenHelper) : ℤ :=
  if h.num_tehai < 13 then 8
  else
    let r := (List.range 48).foldl (kokushiStep h.pais) (0, false)
    13 - r.1 - (if r.2 then 1 else 0)

/-- One step of the counting loop of get_chiitoi_shanten: the accumulator
is the pair of the running shanten and the kind counter. -/
def chiitoiStep (pais : List ℤ) (acc : ℤ × ℤ) (idx : ℕ) : ℤ × ℤ :=
  if paiValid idx then
    let num := pais.getD idx 0
    if num = 0 then acc
    else ((if 2 ≤ num then acc.1 - 1 else acc.1), acc.2 + 1)
  else acc

/-- ShantenHelper.get_chiitoi_shanten of src/state.rs. -/
def ShantenHelper.get_chiitoi_shanten (h : ShantenHelper) : ℤ :=
  if h.num_tehai < 13 then 6
  else
    let r := (List.range 48).foldl (chiitoiStep h.pais) (6, 0)
    r.1 + max 0 (7 - r.2)

/-- ShantenHelper.take of src/state.rs: record taken tiles and advance
the remaining-tile cursor (the count array is updated by the callers). -/
def ShantenHelper.take (h : ShantenHelper) (ps : List ℕ) : ShantenHelper :=
  { h with num_pais_rem := h.num_pais_rem - ps.length,
           state := h.state ++ [ps] }

/-- ShantenHelper.rollback_pais of src/state.rs: put one copy of each
listed tile back into the count array and move the cursor back. -/
def ShantenHelper.rollback_pais (h : ShantenHelper) (ps : List ℕ) : ShantenHelper :=
  { h with pais := ps.foldl (fun a p => a.set (unify p) (a.getD (unify p) 0 + 1)) h.pais,
           num_pais_rem := h.num_pais_rem + ps.length,
           state := h.state.dropLast }

/-- ShantenHelper.next_not_zero of src/state.rs: the first slot at or
after the given index holding a positive count, or 48. -/
def ShantenHelper.next_not_zero (h : ShantenHelper) (take_idx : ℕ) : ℕ :=
  match (List.range' take_idx (48 - take_idx)).find? (fun i => decide (0 < h.pais.getD i 0)) with
  | some i => i
  | none => 48

/-- ShantenHelper.eyes of src/state.rs: every valid rank holding at least
two copies, in rank order. -/
def eyesOf (pais : List ℤ) : List ℕ :=
  (List.range 48).filter (fun i => decide (2 ≤ pais.getD i 0) && paiValid i)

/-- ShantenHelper.take_eye of src/state.rs. -/
def ShantenHelper.take_eye (h : ShantenHelper) (pai : ℕ) : ShantenHelper :=
  ShantenHelper.take
    { h with pais := h.pais.set (unify pai) (h.pais.getD (unify pai) 0 - 2) }
    [pai, pai]

/-- The scan loop of ShantenHelper.try_take_3, by recursion on the number
of slots left to visit. -/
def tryTake3Go (h : ShantenHelper) : ℕ → ℕ → Option (List ℕ × ℕ × ShantenHelper)
  | 0, _ => none
  | fuel + 1, idx =>
    let num := h.pais.getD idx 0
    if num < 1 then tryTake3Go h fuel (idx + 1)
    else if 41 ≤ idx ∧ idx ≤ 47 ∧ 3 ≤ num then
      some ([idx, idx, idx], idx,
        ShantenHelper.take { h with pais := h.pais.set idx (num - 3) } [idx, idx, idx])
    else if suit_range idx then
      if 3 ≤ num then
        some ([idx, idx, idx], idx,
          ShantenHelper.take { h with pais := h.pais.set idx (num - 3) } [idx, idx, idx])
      else if h.pais.getD (idx + 1) 0 < 1 ∨ h.pais.getD (idx + 2) 0 < 1 then
        tryTake3Go h fuel (idx + 1)
      else
        let p1 := h.pais.set idx (num - 1)
        let p2 := p1.set (idx + 1) (p1.getD (idx + 1) 0 - 1)
        let p3 := p2.set (idx + 2) (p2.getD (idx + 2) 0 - 1)
        some ([idx, idx + 1, idx + 2], idx,
          ShantenHelper.take { h with pais := p3 } [idx, idx + 1, idx + 2])
    else tryTake3Go h fuel (idx + 1)

/-- ShantenHelper.try_take_3 of src/state.rs: scan from the given index
for a triplet or a run, remove it, and report it with its index. -/
def ShantenHelper.try_take_3 (h : ShantenHelper) (take_idx : ℕ) :
    Option (List ℕ × ℕ × ShantenHelper) :=
  tryTake3Go h (48 - take_idx) take_idx

/-- The pair-scan loop of ShantenHelper.try_take_2. -/
def tryPairGo (h : ShantenHelper) : ℕ → ℕ → Option (List ℕ × ℕ × ShantenHelper)
  | 0, _ => none
  | fuel + 1, idx =>
    let num := h.pais.getD idx 0
    if 2 ≤ num ∧ paiValid idx then
      some ([idx, idx], idx,
        ShantenHelper.take { h with pais := h.pais.set idx (num - 2) } [idx, idx])
    else tryPairGo h fuel (idx + 1)

/-- The proto-run scan loop of ShantenHelper.try_take_2 (ryanmen, penchan
and kanchan shapes over the suit blocks). -/
def tryDaziGo (h : ShantenHelper) : ℕ → ℕ → Option (List ℕ × ℕ × ShantenHelper)
  | 0, _ => none
  | fuel + 1, idx =>
    let num := h.pais.getD idx 0
    if num < 1 then tryDaziGo h fuel (idx + 1)
    else if suit_range idx then
      if 0 < h.pais.getD (idx + 1) 0 then
        let p1 := h.pais.set idx (num - 1)
        let p2 := p1.set (idx + 1) (p1.getD (idx + 1) 0 - 1)
        some ([idx, idx + 1], idx, ShantenHelper.take { h with pais := p2 } [idx, idx + 1])
      else if 0 < h.pais.getD (idx + 2) 0 then
        let p1 := h.pais.set idx (num - 1)
        let p2 := p1.set (idx + 2) (p1.getD (idx + 2) 0 - 1)
        some ([idx, idx + 2], idx, ShantenHelper.take { h with pais := p2 } [idx, idx + 2])
      else tryDaziGo h fuel (idx + 1)
    else tryDaziGo h fuel (idx + 1)

/-- ShantenHelper.try_take_2 of src/state.rs: first scan all slots from
the given index for a pair, then scan the suit blocks for a proto-run. -/
def ShantenHelper.try_take_2 (h : ShantenHelper) (take_idx : ℕ) :
    Option (List ℕ × ℕ × ShantenHelper) :=
  match tryPairGo h (48 - take_idx) take_idx with
  | some r => some r
  | none => tryDaziGo h (38 - take_idx) take_idx

/-- The scan loop of ShantenHelper.try_take_1.  As in the source, the
count of the taken slot is decreased by two although only one tile is
recorded as taken. -/
def tryTake1Go (h : ShantenHelper) : ℕ → ℕ → Option (ℕ × ShantenHelper)
  | 0, _ => none
  | fuel + 1, idx =>
    let num := h.pais.getD idx 0
    if num < 1 then tryTake1Go h fuel (idx + 1)
    else if paiValid idx then
      some (idx, ShantenHelper.take { h with pais := h.pais.set idx (num - 2) } [idx])
    else tryTake1Go h fuel (idx + 1)

/-- ShantenHelper.try_take_1 of src/state.rs. -/
def ShantenHelper.try_take_1 (h : ShantenHelper) (take_idx : ℕ) :
    Option (ℕ × ShantenHelper) :=
  tryTake1Go h (48 - take_idx) take_idx

/-- One iteration of the singles loop at the end of search_by_take_2 of
src/state.rs: try to take one tile at the iteration index, recurse
through the given continuation, and roll the tile back. -/
def singlesStep
    (search : ShantenHelper → ℕ → ℤ → ℤ → ℤ → ℤ → ℤ → ℤ → Option (ShantenHelper × ℤ × ℤ))
    (begin_idx : ℕ) (k exist_eye num_meld num_dazi : ℤ)
    (acc : Option (ShantenHelper × ℤ × ℤ)) (take_idx : ℕ) :
    Option (ShantenHelper × ℤ × ℤ) :=
  match acc with
  | none => none
  | some (hh, ss, cc) =>
    match hh.try_take_1 take_idx with
    | none => some (hh, ss, cc)
    | some (pai, hh1) =>
      match search hh1 (begin_idx + 1) ss cc k exist_eye num_meld num_dazi with
      | none => none
      | some (hh2, ss2, cc2) => some (hh2.rollback_pais [pai], ss2, cc2)

/-- ShantenHelper.search_by_take_2 of src/state.rs, the partial-group and
singles phase of the standard-shape search.  The embedding is by
recursion on an explicit fuel argument (the source recursion has no
structural decrease); out of fuel is the value none, and the result
bundles the final scratch state with the output values of the two
in-out parameters shanten and c_max. -/
def search_by_take_2 :
    ℕ → ShantenHelper → ℕ → ℤ → ℤ → ℤ → ℤ → ℤ → ℤ → Option (ShantenHelper × ℤ × ℤ)
  | 0, _, _, _, _, _, _, _, _ => none
  | n + 1, h, begin_idx, shanten, c_max, k, exist_eye, num_meld, num_dazi =>
    if shanten = -1 ∨ h.num_tehai < num_meld + num_dazi then
      some (h, shanten, c_max)
    else
      let c := 3 * num_meld + 2 * num_dazi + 2 * exist_eye
      if h.num_pais_rem < c_max - c then some (h, shanten, c_max)
      else if h.num_pais_rem = 0 then
        let penalty := num_meld + num_dazi + exist_eye - 5
        let num_fuuros := Int.tdiv (14 - h.num_tehai) 3
        let cur_s := 9 - 2 * num_meld - num_dazi - 2 * exist_eye - num_fuuros + penalty
        some (h, min shanten cur_s, max c_max c)
      else
        let afterDazi : Option (ShantenHelper × ℤ × ℤ) :=
          match h.try_take_2 begin_idx with
          | none => some (h, shanten, c_max)
          | some (dazi, next_search_idx, h1) =>
            match search_by_take_2 n h1 next_search_idx shanten c_max k exist_eye
                num_meld (num_dazi + 1) with
            | none => none
            | some (h2, s2, c2) => some (h2.rollback_pais dazi, s2, c2)
        match afterDazi with
        | none => none
        | some (h3, s3, c3) =>
          (List.range h3.num_pais_rem.toNat).foldl
            (singlesStep (search_by_take_2 n) begin_idx k exist_eye num_meld num_dazi)
            (some (h3, s3, c3))

/-- ShantenHelper.search_by_take_3 of src/state.rs, the complete-group
phase of the standard-shape search, fueled like search_by_take_2. -/
def search_by_take_3 :
    ℕ → ShantenHelper → ℤ → ℕ → ℤ → ℤ → ℤ → ℤ → ℤ → Option (ShantenHelper × ℤ × ℤ)
  | 0, _, _, _, _, _, _, _, _ => none
  | n + 1, h, level, begin_idx, shanten, c_max, k, exist_eye, num_meld =>
    if 48 ≤ begin_idx ∨ Int.tdiv h.num_pais_rem 3 < level then
      search_by_take_2 n h 0 shanten c_max k exist_eye num_meld 0
    else
      let afterMeld : Option (ShantenHelper × ℤ × ℤ) :=
        match h.try_take_3 begin_idx with
        | none => some (h, shanten, c_max)
        | some (meld, next_search_idx, h1) =>
          match search_by_take_3 n h1 (level + 1) next_search_idx shanten c_max k
              exist_eye (num_meld + 1) with
          | none => none
          | some (h2, s2, c2) => some (h2.rollback_pais meld, s2, c2)
      match afterMeld with
      | none => none
      | some (h3, s3, c3) =>
        search_by_take_3 n h3 level (h3.next_not_zero (begin_idx + 1)) s3 c3 k
          exist_eye num_meld

/-- One iteration of the eye loop of get_normal_shanten of src/state.rs:
take the candidate eye, search with the eye flag set, and roll the pair
back. -/
def eyeStep (fuel : ℕ) (k : ℤ) (acc : Option (ShantenHelper × ℤ × ℤ)) (eye : ℕ) :
    Option (ShantenHelper × ℤ × ℤ) :=
  match acc with
  | none => none
  | some (hh, ss, cc) =>
    match search_by_take_3 fuel (hh.take_eye eye) 0 11 ss cc k 1 0 with
    | none => none
    | some (hh2, ss2, cc2) => some (hh2.rollback_pais [eye, eye], ss2, cc2)

/-- ShantenHelper.get_normal_shanten of src/state.rs: try every eye
candidate and the no-eye branch, threading shanten and c_max; the result
bundles the final scratch state with the returned shanten. -/
def ShantenHelper.get_normal_shanten (fuel : ℕ) (h : ShantenHelper) :
    Option (ShantenHelper × ℤ) :=
  let k := Int.tdiv (h.num_pais_rem - 2) 3
  let afterEyes : Option (ShantenHelper × ℤ × ℤ) :=
    (eyesOf h.pais).foldl (eyeStep fuel k) (some (h, 8, 0))
  match afterEyes with
  | none => none
  | some (h4, s4, c4) =>
    match search_by_take_3 fuel h4 0 11 s4 c4 k 0 0 with
    | none => none
    | some (h5, s5, _) => some (h5, s5)

/-- The positive part of the count array: the termination measure of the
standard-shape search (every take removes at least one counted tile). -/
def possum (h : ShantenHelper) : ℕ :=
  (h.pais.map Int.toNat).sum

/-- A fuel budget sufficient for the whole standard-shape search on the
given scratch state (proved sufficient below; the slack absorbs the
growth of the positive part caused by the unguarded eye rollbacks). -/
def fuelFor (h : ShantenHelper) : ℕ :=
  49 * possum h + 5000

/-- The shanten value of the standard-shape search run with a sufficient
fuel budget (proved sufficient below); the fallback 8 is never reached. -/
def ShantenHelper.normal_shanten_value (h : ShantenHelper) : ℤ :=
  match h.get_normal_shanten (fuelFor h) with
  | some r => r.2
  | none => 8

/-- ShantenHelper.get_shanten of src/state.rs: the minimum of the three
shape-specific distances. -/
def ShantenHelper.get_shanten (h : ShantenHelper) : ℤ :=
  min (min h.get_kokushi_shanten h.get_chiitoi_shanten) h.normal_shanten_value

/-- State.calc_shanten of src/state.rs: the engine is fed from the
concealed hand alone. -/
def State.calc_shanten (st : State) : ℤ :=
  (ShantenHelper.new st.tehai).get_shanten

/-- A second reading of the engine entry point, written to follow the
words of the spec rather than the source: the three shape models are
evaluated over the flattened multiset of all tiles attributed to the
seat, the concealed hand plus every called meld.  It is compared with
State.calc_shanten, which is translated from the source. -/
def State.calc_shanten_flattened (st : State) : ℤ :=
  (ShantenHelper.new st.iterList).get_shanten

/-- The number of tiles of the seat whose unified code is the given slot:
the value the counting loop of ShantenHelper.new stores there. -/
def tileCount (tiles : List ℕ) (i : ℕ) : ℕ :=
  tiles.countP (fun p => unify p == i)

/-- A structurally sound hand as the numeric contract of the spec assumes
it: 13 or 14 tiles, every tile a valid code, and at most four copies of
each unified kind. -/
def legalHand (tiles : List ℕ) : Prop :=
  (tiles.length = 13 ∨ tiles.length = 14) ∧
  (∀ p ∈ tiles, paiValid p = true) ∧
  (∀ i ∈ validCodes, tileCount tiles i ≤ 4)

/-- The promotion-matching rule of the spec: the record is an open
triplet whose called tile together with its two consumed tiles equals,
as a set, the given consumed-tile collection. -/
def ponMatches (consumed : Consumed) (f : Fuuro) : Prop :=
  ∃ t p c, f = Fuuro.pon t p c ∧ (p :: c.s).Perm consumed.s

/-- The events on which State.update is a no-op according to the spec:
every unrecognized kind, and every recognized kind except hand-start
whose actor is a different seat. -/
def unrecognizedOrOtherSeat (a : ℕ) : Event → Prop
  | .startKyoku _ => False
  | .tsumo actor _ => actor ≠ a
  | .dahai actor _ _ => actor ≠ a
  | .chi actor _ _ _ => actor ≠ a
  | .pon actor _ _ _ => actor ≠ a
  | .daiminkan actor _ _ _ => actor ≠ a
  | .kakan actor _ _ => actor ≠ a
  | .ankan actor _ => actor ≠ a
  | .other => True

theorem consumed_fromList_eq_iff (l : List ℕ) (c : Consumed) :
    (Consumed.fromList l).s = c.s ↔ l.Perm c.s := by
  constructor
  · intro h
    exact ((List.perm_insertionSort (fun a b => a ≤ b) l).symm.trans (h ▸ List.Perm.refl _))
  · intro h
    exact List.eq_of_perm_of_sorted
      ((List.perm_insertionSort (fun a b => a ≤ b) l).trans h)
      (List.sorted_insertionSort (fun a b => a ≤ b) l) c.sorted

theorem findPon_none_iff (consumed : Consumed) :
    ∀ (l : List Fuuro) (i : ℕ),
      findPon consumed l i = none ↔ ∀ f ∈ l, ¬ ponMatches consumed f := by
  intro l
  induction l with
  | nil => intro i; simp [findPon]
  | cons f rest ih =>
    intro i
    cases f with
    | pon t p c =>
      by_cases hm : (Consumed.fromList (p :: c.s)).s = consumed.s
      · simp only [findPon, hm, if_pos rfl, reduceCtorEq]
        constructor
        · intro h; exact absurd h (by simp)
        · intro h
          exact absurd ⟨t, p, c, rfl, (consumed_fromList_eq_iff _ _).1 hm⟩
            (h _ (List.mem_cons_self _ _))
      · simp only [findPon, if_neg hm]
        rw [ih (i + 1)]
        constructor
        · intro h g hg
          rcases List.mem_cons.1 hg with rfl | hg2
          · rintro ⟨t2, p2, c2, heq, hperm⟩
            cases heq
            exact hm ((consumed_fromList_eq_iff _ _).2 hperm)
          · exact h g hg2
        · intro h g hg; exact h g (List.mem_cons_of_mem _ hg)
    | chi t p c =>
      simp only [findPon]
      rw [ih (i + 1)]
      constructor
      · intro h g hg
        rcases List.mem_cons.1 hg with rfl | hg2
        · rintro ⟨t2, p2, c2, heq, hperm⟩; cases heq
        · exact h g hg2
      · intro h g hg; exact h g (List.mem_cons_of_mem _ hg)
    | daiminkan t p c =>
      simp only [findPon]
      rw [ih (i + 1)]
      constructor
      · intro h g hg
        rcases List.mem_cons.1 hg with rfl | hg2
        · rintro ⟨t2, p2, c2, heq, hperm⟩; cases heq
        · exact h g hg2
      · intro h g hg; exact h g (List.mem_cons_of_mem _ hg)
    | kakan p t pp c =>
      simp only [findPon]
      rw [ih (i + 1)]
      constructor
      · intro h g hg
        rcases List.mem_cons.1 hg with rfl | hg2
        · rintro ⟨t2, p2, c2, heq, hperm⟩; cases heq
        · exact h g hg2
      · intro h g hg; exact h g (List.mem_cons_of_mem _ hg)
    | ankan c =>
      simp only [findPon]
      rw [ih (i + 1)]
      constructor
      · intro h g hg
        rcases List.mem_cons.1 hg with rfl | hg2
        · rintro ⟨t2, p2, c2, heq, hperm⟩; cases heq
        · exact h g hg2
      · intro h g hg; exact h g (List.mem_cons_of_mem _ hg)

theorem findPon_some (consumed : Consumed) :
    ∀ (l : List Fuuro) (i : ℕ) (r : ℕ × ℕ × ℕ × Consumed),
      findPon consumed l i = some r →
      ∃ j, j < l.length ∧ r.1 = i + j ∧
        l[j]? = some (Fuuro.pon r.2.1 r.2.2.1 r.2.2.2) ∧
        (Consumed.fromList (r.2.2.1 :: r.2.2.2.s)).s = consumed.s := by
  intro l
  induction l with
  | nil => intro i r h; simp [findPon] at h
  | cons f rest ih =>
    intro i r h
    cases f with
    | pon t2 p2 c2 =>
      by_cases hm : (Consumed.fromList (p2 :: c2.s)).s = consumed.s
      · rw [findPon, if_pos hm] at h
        cases Option.some.inj h
        exact ⟨0, by simp, by omega, by simp, hm⟩
      · rw [findPon, if_neg hm] at h
        obtain ⟨j, hj, hidx, hget, hc⟩ := ih (i + 1) r h
        exact ⟨j + 1, by simpa using Nat.succ_lt_succ hj, by omega, by simpa using hget, hc⟩
    | chi t2 p2 c2 =>
      simp only [findPon] at h
      obtain ⟨j, hj, hidx, hget, hc⟩ := ih (i + 1) r h
      exact ⟨j + 1, by simpa using Nat.succ_lt_succ hj, by omega, by simpa using hget, hc⟩
    | daiminkan t2 p2 c2 =>
      simp only [findPon] at h
      obtain ⟨j, hj, hidx, hget, hc⟩ := ih (i + 1) r h
      exact ⟨j + 1, by simpa using Nat.succ_lt_succ hj, by omega, by simpa using hget, hc⟩
    | kakan p2 t2 pp2 c2 =>
      simp only [findPon] at h
      obtain ⟨j, hj, hidx, hget, hc⟩ := ih (i + 1) r h
      exact ⟨j + 1, by simpa using Nat.succ_lt_succ hj, by omega, by simpa using hget, hc⟩
    | ankan c2 =>
      simp only [findPon] at h
      obtain ⟨j, hj, hidx, hget, hc⟩ := ih (i + 1) r h
      exact ⟨j + 1, by simpa using Nat.succ_lt_succ hj, by omega, by simpa using hget, hc⟩


/-- C9: every event that is not one of the recognized kinds, or whose
actor is a different seat (hand-start excepted, as it is untargeted), is
a no-op: update returns Ok and leaves the hand and the meld list
unchanged. -/
theorem c9_unrecognized_events_are_noops (st : State) (e : Event)
    (h : unrecognizedOrOtherSeat st.actor e) : st.update e = (st, true) := by
  cases e with
  | startKyoku tehais => exact absurd h (by simp [unrecognizedOrOtherSeat])
  | tsumo a p =>
      have ha : a ≠ st.actor := h
      simp [State.update, ha]
  | dahai a p t =>
      have ha : a ≠ st.actor := h
      simp [State.update, ha]
  | chi a t p c =>
      have ha : a ≠ st.actor := h
      simp [State.update, ha]
  | pon a t p c =>
      have ha : a ≠ st.actor := h
      simp [State.update, ha]
  | daiminkan a t p c =>
      have ha : a ≠ st.actor := h
      simp [State.update, ha]
  | kakan a p c =>
      have ha : a ≠ st.actor := h
      simp [State.update, ha]
  | ankan a c =>
      have ha : a ≠ st.actor := h
      simp [State.update, ha]
  | other => rfl

/-- Witness for C9 at a concrete seat state and a draw event addressed
to a different seat. -/
theorem c9_unrecognized_events_are_noops_witness :
    State.update ⟨0, [11], []⟩ (Event.tsumo 1 15) = (⟨0, [11], []⟩, true) :=
  c9_unrecognized_events_are_noops ⟨0, [11], []⟩ (Event.tsumo 1 15)
    (by simp [unrecognizedOrOtherSeat])

theorem c9_noop_aux (st : State) (e : Event)
    (h : unrecognizedOrOtherSeat st.actor e) : st.update e = (st, true) := by
  cases e with
  | startKyoku tehais => exact absurd h (by simp [unrecognizedOrOtherSeat])
  | tsumo a p =>
      have ha : a ≠ st.actor := h
      simp [State.update, ha]
  | dahai a p t =>
      have ha : a ≠ st.actor := h
      simp [State.update, ha]
  | chi a t p c =>
      have ha : a ≠ st.actor := h
      simp [State.update, ha]
  | pon a t p c =>
      have ha : a ≠ st.actor := h
      simp [State.update, ha]
  | daiminkan a t p c =>
      have ha : a ≠ st.actor := h
      simp [State.update, ha]
  | kakan a p c =>
      have ha : a ≠ st.actor := h
      simp [State.update, ha]
  | ankan a c =>
      have ha : a ≠ st.actor := h
      simp [State.update, ha]
  | other => rfl

/-- C10: a single update call changes the meld list in exactly one of
four ways, each preserving the relative order of untouched records:
self-targeted Chi, Pon, Daiminkan and Ankan append exactly the one new
record at the end; a successful self-targeted Kakan replaces exactly one
record in place at its original index, keeping the length unchanged;
hand-start clears the list; every other event (including a failed
Kakan) leaves it unchanged; and the length never decreases except at
hand-start. -/
theorem c10_meld_list_evolution (st : State) (e : Event) :
    ((∃ f, ((st.update e).1).fuuros = st.fuuros ++ [f]) ∨
     (∃ idx f, idx < st.fuuros.length ∧ ((st.update e).1).fuuros = st.fuuros.set idx f) ∨
     ((st.update e).1).fuuros = [] ∨
     ((st.update e).1).fuuros = st.fuuros) ∧
    ((∀ ts, e ≠ Event.startKyoku ts) → st.fuuros.length ≤ ((st.update e).1).fuuros.length) ∧
    (∀ t p c, e = Event.chi st.actor t p c →
      ((st.update e).1).fuuros = st.fuuros ++ [Fuuro.chi t p c]) ∧
    (∀ t p c, e = Event.pon st.actor t p c →
      ((st.update e).1).fuuros = st.fuuros ++ [Fuuro.pon t p c]) ∧
    (∀ t p c, e = Event.daiminkan st.actor t p c →
      ((st.update e).1).fuuros = st.fuuros ++ [Fuuro.daiminkan t p c]) ∧
    (∀ c, e = Event.ankan st.actor c →
      ((st.update e).1).fuuros = st.fuuros ++ [Fuuro.ankan c]) ∧
    (∀ ts, e = Event.startKyoku ts → ((st.update e).1).fuuros = []) ∧
    (∀ p c, e = Event.kakan st.actor p c → (st.update e).2 = true →
      ∃ idx f, idx < st.fuuros.length ∧
        ((st.update e).1).fuuros = st.fuuros.set idx f ∧
        ((st.update e).1).fuuros.length = st.fuuros.length) ∧
    (∀ p c, e = Event.kakan st.actor p c → (st.update e).2 = false →
      ((st.update e).1).fuuros = st.fuuros) ∧
    (unrecognizedOrOtherSeat st.actor e → ((st.update e).1).fuuros = st.fuuros) := by
  have hmain : (∃ f, ((st.update e).1).fuuros = st.fuuros ++ [f]) ∨
      (∃ idx f, idx < st.fuuros.length ∧ ((st.update e).1).fuuros = st.fuuros.set idx f) ∨
      ((st.update e).1).fuuros = [] ∨
      ((st.update e).1).fuuros = st.fuuros := by
    cases e with
    | startKyoku tehais =>
        exact Or.inr (Or.inr (Or.inl (by simp [State.update])))
    | tsumo a p =>
        by_cases ha : a = st.actor <;>
          exact Or.inr (Or.inr (Or.inr (by simp [State.update, ha])))
    | dahai a p t =>
        by_cases ha : a = st.actor <;>
          exact Or.inr (Or.inr (Or.inr (by simp [State.update, ha])))
    | chi a t p c =>
        by_cases ha : a = st.actor
        · exact Or.inl ⟨Fuuro.chi t p c, by simp [State.update, ha]⟩
        · exact Or.inr (Or.inr (Or.inr (by simp [State.update, ha])))
    | pon a t p c =>
        by_cases ha : a = st.actor
        · exact Or.inl ⟨Fuuro.pon t p c, by simp [State.update, ha]⟩
        · exact Or.inr (Or.inr (Or.inr (by simp [State.update, ha])))
    | daiminkan a t p c =>
        by_cases ha : a = st.actor
        · exact Or.inl ⟨Fuuro.daiminkan t p c, by simp [State.update, ha]⟩
        · exact Or.inr (Or.inr (Or.inr (by simp [State.update, ha])))
    | kakan a p consumed =>
        by_cases ha : a = st.actor
        · rcases hf : findPon consumed st.fuuros 0 with _ | ⟨idx, t, pp, c⟩
          · exact Or.inr (Or.inr (Or.inr (by simp [State.update, ha, hf])))
          · obtain ⟨j, hj, hidx, _, _⟩ :=
              findPon_some consumed st.fuuros 0 (idx, t, pp, c) hf
            simp only at hidx
            refine Or.inr (Or.inl ⟨idx, Fuuro.kakan p t pp c, by omega, ?_⟩)
            simp [State.update, ha, hf]
        · exact Or.inr (Or.inr (Or.inr (by simp [State.update, ha])))
    | ankan a c =>
        by_cases ha : a = st.actor
        · exact Or.inl ⟨Fuuro.ankan c, by simp [State.update, ha]⟩
        · exact Or.inr (Or.inr (Or.inr (by simp [State.update, ha])))
    | other => exact Or.inr (Or.inr (Or.inr rfl))
  have hlen : (∀ ts, e ≠ Event.startKyoku ts) →
      st.fuuros.length ≤ ((st.update e).1).fuuros.length := by
    intro hne
    cases e with
    | startKyoku tehais => exact absurd rfl (hne tehais)
    | tsumo a p => by_cases ha : a = st.actor <;> simp [State.update, ha]
    | dahai a p t => by_cases ha : a = st.actor <;> simp [State.update, ha]
    | chi a t p c => by_cases ha : a = st.actor <;> simp [State.update, ha]
    | pon a t p c => by_cases ha : a = st.actor <;> simp [State.update, ha]
    | daiminkan a t p c => by_cases ha : a = st.actor <;> simp [State.update, ha]
    | kakan a p consumed =>
        by_cases ha : a = st.actor
        · rcases hfp : findPon consumed st.fuuros 0 with _ | ⟨idx, t, pp, c⟩
          · simp [State.update, ha, hfp]
          · simp [State.update, ha, hfp]
        · simp [State.update, ha]
    | ankan a c => by_cases ha : a = st.actor <;> simp [State.update, ha]
    | other => simp [State.update]
  refine ⟨hmain, hlen, ?_, ?_, ?_, ?_, ?_, ?_, ?_, ?_⟩
  · rintro t p c rfl; simp [State.update]
  · rintro t p c rfl; simp [State.update]
  · rintro t p c rfl; simp [State.update]
  · rintro c rfl; simp [State.update]
  · rintro ts rfl; simp [State.update]
  · rintro p c rfl hok
    rcases hf : findPon c st.fuuros 0 with _ | ⟨idx, t, pp, cc⟩
    · exact absurd hok (by simp [State.update, hf])
    · obtain ⟨j, hj, hidx, _, _⟩ := findPon_some c st.fuuros 0 (idx, t, pp, cc) hf
      simp only at hidx
      refine ⟨idx, Fuuro.kakan p t pp cc, by omega, by simp [State.update, hf], ?_⟩
      simp [State.update, hf]
  · rintro p c rfl herr
    rcases hf : findPon c st.fuuros 0 with _ | ⟨idx, t, pp, cc⟩
    · simp [State.update, hf]
    · exact absurd herr (by simp [State.update, hf])
  · intro hu
    rw [c9_noop_aux st e hu]

/-- Witness for C10 at a concrete seat state and event. -/
theorem c10_meld_list_evolution_witness :
    ((∃ f, ((State.update ⟨0, [11], []⟩ Event.other).1).fuuros = [] ++ [f]) ∨
     (∃ idx f, idx < ([] : List Fuuro).length ∧
        ((State.update ⟨0, [11], []⟩ Event.other).1).fuuros = [].set idx f) ∨
     ((State.update ⟨0, [11], []⟩ Event.other).1).fuuros = [] ∨
     ((State.update ⟨0, [11], []⟩ Event.other).1).fuuros = []) ∧
    ((∀ ts, Event.other ≠ Event.startKyoku ts) →
      ([] : List Fuuro).length ≤ ((State.update ⟨0, [11], []⟩ Event.other).1).fuuros.length) :=
  ⟨(c10_meld_list_evolution ⟨0, [11], []⟩ Event.other).1,
   (c10_meld_list_evolution ⟨0, [11], []⟩ Event.other).2.1⟩

/-- C5: applying a kan-by-promotion event targeting this seat fails
exactly when no recorded open-triplet meld matches the three consumed
tiles as a set; on success the matching triplet record is replaced in
place (exactly one record, same index, length unchanged) and the hand
loses exactly one tile of the called kind. -/
theorem c5_kakan_promotion (st : State) (pai : ℕ) (consumed : Consumed) :
    ((st.update (Event.kakan st.actor pai consumed)).2 = false ↔
      ∀ f ∈ st.fuuros, ¬ ponMatches consumed f) ∧
    ((st.update (Event.kakan st.actor pai consumed)).2 = true →
      ∃ idx t p c, idx < st.fuuros.length ∧
        st.fuuros[idx]? = some (Fuuro.pon t p c) ∧
        (p :: c.s).Perm consumed.s ∧
        (st.update (Event.kakan st.actor pai consumed)).1.fuuros =
          st.fuuros.set idx (Fuuro.kakan pai t p c) ∧
        (st.update (Event.kakan st.actor pai consumed)).1.fuuros.length =
          st.fuuros.length ∧
        (st.update (Event.kakan st.actor pai consumed)).1.tehai = st.tehai.erase pai) ∧
    ((st.update (Event.kakan st.actor pai consumed)).2 = true → pai ∈ st.tehai →
      ((st.update (Event.kakan st.actor pai consumed)).1.tehai.count pai + 1 =
          st.tehai.count pai ∧
       ∀ q, q ≠ pai →
        (st.update (Event.kakan st.actor pai consumed)).1.tehai.count q =
          st.tehai.count q)) := by
  rcases hf : findPon consumed st.fuuros 0 with _ | ⟨idx, t, p, c⟩
  · have hres : st.update (Event.kakan st.actor pai consumed) =
        ({ st with tehai := Tehai.tedashi st.tehai pai }, false) := by
      simp [State.update, hf]
    refine ⟨?_, ?_, ?_⟩
    · rw [hres]
      simpa using (findPon_none_iff consumed st.fuuros 0).1 hf
    · rw [hres]; intro hx; cases hx
    · rw [hres]; intro hx; cases hx
  · obtain ⟨j, hj, hidx, hget, hc⟩ := findPon_some consumed st.fuuros 0 (idx, t, p, c) hf
    simp only at hidx hget hc
    have hres : st.update (Event.kakan st.actor pai consumed) =
        ({ st with tehai := Tehai.tedashi st.tehai pai,
                   fuuros := st.fuuros.set idx (Fuuro.kakan pai t p c) }, true) := by
      simp [State.update, hf]
    refine ⟨?_, ?_, ?_⟩
    · rw [hres]
      constructor
      · intro hx; exact absurd hx (by simp)
      · intro hall
        have hmem : Fuuro.pon t p c ∈ st.fuuros := by
          have := List.getElem?_eq_some.1 hget
          obtain ⟨hlt, heq⟩ := this
          exact heq ▸ List.getElem_mem hlt
        exact ((hall _ hmem) ⟨t, p, c, rfl, (consumed_fromList_eq_iff _ _).1 hc⟩).elim
    · intro _
      refine ⟨idx, t, p, c, by omega, by simpa [hidx] using hget,
        (consumed_fromList_eq_iff _ _).1 hc, by rw [hres], by rw [hres]; simp,
        by rw [hres]; rfl⟩
    · intro _ hmem
      rw [hres]
      constructor
      · have h1 : 0 < st.tehai.count pai := List.count_pos_iff.2 hmem
        have h2 : (st.tehai.erase pai).count pai = st.tehai.count pai - 1 :=
          List.count_erase_self pai st.tehai
        simp only [Tehai.tedashi]
        omega
      · intro q hq
        simpa [Tehai.tedashi] using List.count_erase_of_ne hq st.tehai

/-- Witness for C5: a concrete promotion of a recorded East triplet by a
drawn East tile succeeds and removes one East tile from the hand. -/
theorem c5_kakan_promotion_witness :
    (State.update ⟨0, [41, 15, 29], [Fuuro.pon 2 41 (Consumed.fromList [41, 41])]⟩
        (Event.kakan 0 41 (Consumed.fromList [41, 41, 41]))).2 = true ∧
    (State.update ⟨0, [41, 15, 29], [Fuuro.pon 2 41 (Consumed.fromList [41, 41])]⟩
        (Event.kakan 0 41 (Consumed.fromList [41, 41, 41]))).1.tehai.count 41 + 1 =
      ([41, 15, 29] : List ℕ).count 41 :=
  ⟨by decide,
   ((c5_kakan_promotion ⟨0, [41, 15, 29], [Fuuro.pon 2 41 (Consumed.fromList [41, 41])]⟩
      41 (Consumed.fromList [41, 41, 41])).2.2 (by decide) (by decide)).1⟩

theorem getD_set_self48 (l : List ℤ) (i : ℕ) (v : ℤ) (h : i < l.length) :
    (l.set i v).getD i 0 = v := by
  simp [List.getD_eq_getElem?_getD, List.getElem?_set_self', h]

theorem getD_set_ne48 (l : List ℤ) (i j : ℕ) (v : ℤ) (h : i ≠ j) :
    (l.set i v).getD j 0 = l.getD j 0 := by
  simp [List.getD_eq_getElem?_getD, List.getElem?_set_ne, h]

theorem countPais_go_getD (tiles : List ℕ) :
    ∀ (a : List ℤ), a.length = 48 → ∀ i, i < 48 →
      ((tiles.foldl (fun a p => a.set (unify p) (a.getD (unify p) 0 + 1)) a).getD i 0)
        = a.getD i 0 + tileCount tiles i := by
  induction tiles with
  | nil => intro a ha i hi; simp [tileCount]
  | cons p ts ih =>
    intro a ha i hi
    simp only [List.foldl_cons]
    rw [ih _ (by simp [ha]) i hi]
    have hcount : (tileCount (p :: ts) i : ℤ)
        = (if unify p = i then 1 else 0) + tileCount ts i := by
      simp only [tileCount, List.countP_cons]
      by_cases he : unify p = i <;> simp [he] <;> push_cast <;> ring
    rw [hcount]
    by_cases he : unify p = i
    · subst he
      rw [getD_set_self48 _ _ _ (by omega)]
      rw [if_pos rfl]
      ring
    · rw [getD_set_ne48 _ _ _ _ he]
      rw [if_neg he]
      ring

theorem countPais_go_length (tiles : List ℕ) :
    ∀ (a : List ℤ),
      ((tiles.foldl (fun a p => a.set (unify p) (a.getD (unify p) 0 + 1)) a).length)
        = a.length := by
  induction tiles with
  | nil => intro a; rfl
  | cons p ts ih => intro a; simp only [List.foldl_cons]; rw [ih]; simp

theorem countPais_length (tiles : List ℕ) : (countPais tiles).length = 48 := by
  rw [countPais, countPais_go_length]; simp

theorem countPais_getD (tiles : List ℕ) (i : ℕ) (hi : i < 48) :
    (countPais tiles).getD i 0 = tileCount tiles i := by
  rw [countPais, countPais_go_getD tiles _ (by simp) i hi]
  have hz : (List.replicate 48 (0 : ℤ)).getD i 0 = 0 := by
    rw [List.getD_eq_getElem?_getD, List.getElem?_replicate]
    simp [hi]
  rw [hz]
  ring

theorem foldl_eq_foldl_filter {α β : Type} (f : β → α → β) (p : α → Bool)
    (hf : ∀ b a, p a = false → f b a = b) :
    ∀ (l : List α) (b : β), l.foldl f b = (l.filter p).foldl f b := by
  intro l
  induction l with
  | nil => intro b; rfl
  | cons a l ih =>
    intro b
    by_cases hp : p a = true
    · simp [List.filter_cons, hp, ih]
    · have hp2 : p a = false := by simpa using hp
      simp [List.filter_cons, hp2, hf b a hp2, ih]

theorem kokushiStep_not_orphan (pais : List ℤ) (acc : ℤ × Bool) (idx : ℕ)
    (h : idx ∉ orphanCodes) : kokushiStep pais acc idx = acc := by
  unfold kokushiStep
  by_cases hz : pais.getD idx 0 = 0
  · rw [if_pos hz]
  · rw [if_neg hz]
    by_cases hv : paiValid idx = true
    · rw [if_pos hv, if_neg h]
    · rw [if_neg hv]

theorem kokushiFold (pais : List ℤ) :
    ∀ (L : List ℕ), (∀ i ∈ L, paiValid i = true ∧ i ∈ orphanCodes) →
      ∀ (a : ℤ) (b : Bool),
        L.foldl (kokushiStep pais) (a, b) =
          (a + L.countP (fun i => !(pais.getD i 0 == 0)),
           b || L.any (fun i => decide (1 < pais.getD i 0))) := by
  intro L
  induction L with
  | nil => intro _ a b; simp
  | cons i L ih =>
    intro hL a b
    obtain ⟨hv, ho⟩ := hL i (List.mem_cons_self i L)
    have hL2 : ∀ j ∈ L, paiValid j = true ∧ j ∈ orphanCodes :=
      fun j hj => hL j (List.mem_cons_of_mem _ hj)
    simp only [List.foldl_cons]
    by_cases hz : pais.getD i 0 = 0
    · have hstep : kokushiStep pais (a, b) i = (a, b) := by
        unfold kokushiStep; rw [if_pos hz]
      rw [hstep, ih hL2 a b]
      have hb : (pais.getD i 0 == 0) = true := by rw [beq_iff_eq]; exact hz
      have hc : List.countP (fun j => !(pais.getD j 0 == 0)) (i :: L)
          = List.countP (fun j => !(pais.getD j 0 == 0)) L := by
        rw [List.countP_cons]
        have hb2 : (!(pais.getD i 0 == 0)) = false := by rw [hb]; rfl
        rw [hb2]
        simp
      have hd : decide (1 < pais.getD i 0) = false := by
        rw [hz]
        rfl
      have ha2 : (i :: L).any (fun j => decide (1 < pais.getD j 0))
          = L.any (fun j => decide (1 < pais.getD j 0)) := by
        rw [List.any_cons]
        show (decide (1 < pais.getD i 0) || _) = _
        rw [hd]
        rw [Bool.false_or]
      rw [hc, ha2]
    · have hstep : kokushiStep pais (a, b) i
          = (a + 1, b || decide (1 < pais.getD i 0)) := by
        unfold kokushiStep; rw [if_neg hz, if_pos hv, if_pos ho]
      rw [hstep, ih hL2]
      rw [Prod.mk.injEq]
      refine ⟨?_, ?_⟩
      · have hb : (!(pais.getD i 0 == 0)) = true := by
          rw [beq_eq_false_iff_ne.2 hz]
          rfl
        rw [List.countP_cons, hb, if_pos rfl]
        push_cast
        ring
      · rw [List.any_cons, Bool.or_assoc]

theorem any_congr {α : Type} {p q : α → Bool} :
    ∀ (l : List α), (∀ a ∈ l, p a = q a) → l.any p = l.any q := by
  intro l
  induction l with
  | nil => intro _; rfl
  | cons a l ih =>
    intro h
    rw [List.any_cons, List.any_cons, h a (List.mem_cons_self a l),
      ih (fun b hb => h b (List.mem_cons_of_mem _ hb))]

theorem kokushi_closed_form (tiles : List ℕ) :
    (ShantenHelper.new tiles).get_kokushi_shanten =
      if (tiles.length : ℤ) < 13 then 8
      else 13 - (orphanCodes.countP (fun i => decide (0 < tileCount tiles i)) : ℤ)
        - (if orphanCodes.any (fun i => decide (2 ≤ tileCount tiles i)) then 1 else 0) := by
  unfold ShantenHelper.get_kokushi_shanten ShantenHelper.new
  simp only
  by_cases hlen : (tiles.length : ℤ) < 13
  · rw [if_pos hlen, if_pos hlen]
  · rw [if_neg hlen, if_neg hlen]
    rw [foldl_eq_foldl_filter (kokushiStep (countPais tiles))
      (fun i => decide (i ∈ orphanCodes))
      (fun b a ha => kokushiStep_not_orphan _ b a (by simpa using ha))]
    have hfilter : (List.range 48).filter (fun i => decide (i ∈ orphanCodes))
        = orphanCodes := by decide
    rw [hfilter,
      kokushiFold (countPais tiles) orphanCodes (by decide) 0 false]
    have hcount : orphanCodes.countP (fun i => !((countPais tiles).getD i 0 == 0))
        = orphanCodes.countP (fun i => decide (0 < tileCount tiles i)) := by
      apply List.countP_congr
      intro i hi
      have hi48 : i < 48 := by fin_cases hi <;> decide
      rw [countPais_getD tiles i hi48]
      rcases Nat.eq_zero_or_pos (tileCount tiles i) with h0 | h0
      · simp [h0]
      · have : ((tileCount tiles i : ℤ) == 0) = false := by
          simp; omega
        simp [this, h0]
    have hany : orphanCodes.any (fun i => decide (1 < (countPais tiles).getD i 0))
        = orphanCodes.any (fun i => decide (2 ≤ tileCount tiles i)) := by
      apply any_congr
      intro i hi
      have hi48 : i < 48 := by fin_cases hi <;> decide
      rw [countPais_getD tiles i hi48]
      apply decide_eq_decide.2
      omega
    rw [hcount, hany, Bool.false_or]
    simp

theorem chiitoiStep_not_valid (pais : List ℤ) (acc : ℤ × ℤ) (idx : ℕ)
    (h : ¬ paiValid idx = true) : chiitoiStep pais acc idx = acc := by
  unfold chiitoiStep
  rw [if_neg h]

theorem chiitoiFold (pais : List ℤ) :
    ∀ (L : List ℕ), (∀ i ∈ L, paiValid i = true) →
      ∀ (a kk : ℤ),
        L.foldl (chiitoiStep pais) (a, kk) =
          (a - L.countP (fun i => decide (2 ≤ pais.getD i 0)),
           kk + L.countP (fun i => !(pais.getD i 0 == 0))) := by
  intro L
  induction L with
  | nil => intro _ a kk; simp
  | cons i L ih =>
    intro hL a kk
    have hv : paiValid i = true := hL i (List.mem_cons_self i L)
    have hL2 : ∀ j ∈ L, paiValid j = true :=
      fun j hj => hL j (List.mem_cons_of_mem _ hj)
    simp only [List.foldl_cons]
    by_cases hz : pais.getD i 0 = 0
    · have hstep : chiitoiStep pais (a, kk) i = (a, kk) := by
        unfold chiitoiStep; rw [if_pos hv, if_pos hz]
      rw [hstep, ih hL2 a kk]
      have hp1 : (decide (2 ≤ pais.getD i 0)) = false := by rw [hz]; rfl
      have hp2 : (!(pais.getD i 0 == 0)) = false := by
        rw [beq_iff_eq.2 hz]; rfl
      rw [List.countP_cons, List.countP_cons, hp1, hp2]
      simp
    · have hp2 : (!(pais.getD i 0 == 0)) = true := by
        rw [beq_eq_false_iff_ne.2 hz]; rfl
      by_cases h2 : 2 ≤ pais.getD i 0
      · have hstep : chiitoiStep pais (a, kk) i = (a - 1, kk + 1) := by
          unfold chiitoiStep; rw [if_pos hv, if_neg hz, if_pos h2]
        rw [hstep, ih hL2]
        have hp1 : (decide (2 ≤ pais.getD i 0)) = true := decide_eq_true h2
        rw [List.countP_cons, List.countP_cons, hp1, hp2]
        rw [Prod.mk.injEq]
        constructor
        · push_cast; simp; try ring
        · push_cast; simp; try ring
      · have hstep : chiitoiStep pais (a, kk) i = (a, kk + 1) := by
          unfold chiitoiStep; rw [if_pos hv, if_neg hz, if_neg h2]
        rw [hstep, ih hL2]
        have hp1 : (decide (2 ≤ pais.getD i 0)) = false := decide_eq_false h2
        rw [List.countP_cons, List.countP_cons, hp1, hp2]
        rw [Prod.mk.injEq]
        constructor
        · simp
        · push_cast; simp; try ring

theorem chiitoi_closed_form :
    (∀ tiles : List ℕ,
      (ShantenHelper.new tiles).get_chiitoi_shanten =
        if (tiles.length : ℤ) < 13 then 6
        else 6 - (validCodes.countP (fun i => decide (2 ≤ tileCount tiles i)) : ℤ)
          + max 0 (7 - (validCodes.countP (fun i => decide (0 < tileCount tiles i)) : ℤ))) ∧
    (ShantenHelper.new
        [11, 11, 12, 12, 13, 13, 21, 21, 22, 22, 31, 31, 41, 41]).get_chiitoi_shanten
      = -1 := by
  constructor
  · intro tiles
    unfold ShantenHelper.get_chiitoi_shanten ShantenHelper.new
    simp only
    by_cases hlen : (tiles.length : ℤ) < 13
    · rw [if_pos hlen, if_pos hlen]
    · rw [if_neg hlen, if_neg hlen]
      rw [foldl_eq_foldl_filter (chiitoiStep (countPais tiles)) paiValid
        (fun b a ha => chiitoiStep_not_valid _ b a (by simp [ha]))]
      have hfilter : (List.range 48).filter paiValid = validCodes := by decide
      rw [hfilter, chiitoiFold (countPais tiles) validCodes (by decide) 6 0]
      have hcount : validCodes.countP (fun i => !((countPais tiles).getD i 0 == 0))
          = validCodes.countP (fun i => decide (0 < tileCount tiles i)) := by
        apply List.countP_congr
        intro i hi
        have hi48 : i < 48 := by fin_cases hi <;> decide
        have hbe : (!((countPais tiles).getD i 0 == 0))
            = decide (0 < tileCount tiles i) := by
          rw [countPais_getD tiles i hi48]
          rcases Nat.eq_zero_or_pos (tileCount tiles i) with h0 | h0
          · simp [h0]
          · have hne : ((tileCount tiles i : ℤ) == 0) = false := by
              simp
              omega
            simp [hne, h0]
        rw [hbe]
      have hcr : validCodes.countP (fun i => decide (2 ≤ (countPais tiles).getD i 0))
          = validCodes.countP (fun i => decide (2 ≤ tileCount tiles i)) := by
        apply List.countP_congr
        intro i hi
        have hi48 : i < 48 := by fin_cases hi <;> decide
        have hbe : (decide (2 ≤ (countPais tiles).getD i 0))
            = decide (2 ≤ tileCount tiles i) := by
          rw [countPais_getD tiles i hi48]
          apply decide_eq_decide.2
          omega
        rw [hbe]
      rw [hcount, hcr]
      simp
  · decide

/-- C6: the thirteen-orphans evaluator returns the sentinel 8 when the
concealed-tile count is below 13, and otherwise 13 minus the number of
distinct terminal or honor kinds present minus one more if any such kind
appears at least twice. -/
theorem c6_kokushi_closed_form (tiles : List ℕ) :
    (ShantenHelper.new tiles).get_kokushi_shanten =
      if (tiles.length : ℤ) < 13 then 8
      else 13 - (orphanCodes.countP (fun i => decide (0 < tileCount tiles i)) : ℤ)
        - (if orphanCodes.any (fun i => decide (2 ≤ tileCount tiles i)) then 1 else 0) :=
  kokushi_closed_form tiles

/-- C7: the seven-pairs evaluator returns the sentinel 6 when the
concealed-tile count is below 13, and otherwise 6 minus the number of
kinds appearing at least twice plus max of 0 and 7 minus the number of
distinct kinds present; in particular a 14-tile hand of seven distinct
pairs with no calls evaluates to minus one. -/
theorem c7_chiitoi_closed_form :
    (∀ tiles : List ℕ,
      (ShantenHelper.new tiles).get_chiitoi_shanten =
        if (tiles.length : ℤ) < 13 then 6
        else 6 - (validCodes.countP (fun i => decide (2 ≤ tileCount tiles i)) : ℤ)
          + max 0 (7 - (validCodes.countP (fun i => decide (0 < tileCount tiles i)) : ℤ))) ∧
    (ShantenHelper.new
        [11, 11, 12, 12, 13, 13, 21, 21, 22, 22, 31, 31, 41, 41]).get_chiitoi_shanten
      = -1 :=
  chiitoi_closed_form

/-- Counterexample for C3: a legal 14-tile hand holding all thirteen
terminal and honor kinds plus a duplicate East makes the kokushi
evaluator return minus one, outside the claimed range 0 to 8 (the closed
form has no clamping). -/
theorem c3_counterexample_kokushi_below_zero :
    legalHand [11, 19, 21, 29, 31, 39, 41, 42, 43, 44, 45, 46, 47, 41] ∧
    (ShantenHelper.new
        [11, 19, 21, 29, 31, 39, 41, 42, 43, 44, 45, 46, 47, 41]).get_kokushi_shanten
      = -1 ∧
    ¬ (0 ≤ (ShantenHelper.new
        [11, 19, 21, 29, 31, 39, 41, 42, 43, 44, 45, 46, 47, 41]).get_kokushi_shanten) := by
  refine ⟨?_, by decide, by decide⟩
  unfold legalHand
  exact ⟨by decide, by decide, by decide⟩

theorem kokushi_bounds (tiles : List ℕ) :
    -1 ≤ (ShantenHelper.new tiles).get_kokushi_shanten ∧
    (ShantenHelper.new tiles).get_kokushi_shanten ≤ 13 := by
  rw [kokushi_closed_form tiles]
  have hK : orphanCodes.countP (fun i => decide (0 < tileCount tiles i)) ≤ 13 := by
    have h := List.countP_le_length (p := fun i => decide (0 < tileCount tiles i))
      (l := orphanCodes)
    simpa using h
  split_ifs <;> constructor <;> omega

theorem sums_ineq :
    ∀ (L : List ℕ) (cnt : ℕ → ℕ), (∀ i ∈ L, cnt i ≤ 4) →
      (L.map cnt).sum ≤ 3 * L.countP (fun i => decide (2 ≤ cnt i))
          + L.countP (fun i => decide (0 < cnt i)) ∧
      2 * L.countP (fun i => decide (2 ≤ cnt i)) ≤ (L.map cnt).sum ∧
      (L.map cnt).sum ≤ 4 * L.countP (fun i => decide (0 < cnt i)) := by
  intro L
  induction L with
  | nil => intro cnt _; simp
  | cons i L ih =>
    intro cnt hb
    have h4 : cnt i ≤ 4 := hb i (List.mem_cons_self i L)
    obtain ⟨ih1, ih2, ih3⟩ := ih cnt (fun j hj => hb j (List.mem_cons_of_mem _ hj))
    rw [List.map_cons, List.sum_cons, List.countP_cons, List.countP_cons]
    by_cases h2 : 2 ≤ cnt i
    · rw [if_pos (decide_eq_true h2)]
      by_cases h0 : 0 < cnt i
      · rw [if_pos (decide_eq_true h0)]
        refine ⟨by omega, by omega, by omega⟩
      · omega
    · have hd2 : (decide (2 ≤ cnt i)) = false := decide_eq_false h2
      rw [hd2]
      by_cases h0 : 0 < cnt i
      · rw [if_pos (decide_eq_true h0)]
        simp only [Bool.false_eq_true, if_false]
        refine ⟨by omega, by omega, by omega⟩
      · have hd0 : (decide (0 < cnt i)) = false := decide_eq_false h0
        rw [hd0]
        simp only [Bool.false_eq_true, if_false]
        refine ⟨by omega, by omega, by omega⟩

theorem unify_mem_validCodes (p : ℕ) (hv : paiValid p = true) :
    unify p ∈ validCodes := by
  have hp : (11 ≤ p ∧ p ≤ 19) ∨ (21 ≤ p ∧ p ≤ 29) ∨ (31 ≤ p ∧ p ≤ 39) ∨
      (41 ≤ p ∧ p ≤ 47) ∨ (51 ≤ p ∧ p ≤ 53) := by
    simpa [paiValid] using hv
  rcases hp with ⟨h1, h2⟩ | ⟨h1, h2⟩ | ⟨h1, h2⟩ | ⟨h1, h2⟩ | ⟨h1, h2⟩ <;>
    interval_cases p <;> decide

theorem beq_symm_nat (x y : ℕ) : (x == y) = (y == x) := by
  by_cases h : x = y
  · subst h; rfl
  · rw [beq_eq_false_iff_ne.2 h, beq_eq_false_iff_ne.2 (Ne.symm h)]

theorem sum_indicator_eq_count (a : ℕ) :
    ∀ (L : List ℕ), (L.map (fun i => if a == i then (1 : ℕ) else 0)).sum = L.count a := by
  intro L
  induction L with
  | nil => simp
  | cons j L ih =>
    rw [List.map_cons, List.sum_cons, ih, List.count_cons]
    rw [beq_symm_nat a j]
    by_cases h : j == a
    · rw [h]; simp; omega
    · have hf : (j == a) = false := by simpa using h
      rw [hf]
      simp

theorem sum_tileCount (tiles : List ℕ) (hv : ∀ p ∈ tiles, paiValid p = true) :
    (validCodes.map (tileCount tiles)).sum = tiles.length := by
  induction tiles with
  | nil => decide
  | cons p ts ih =>
    have hvp : paiValid p = true := hv p (List.mem_cons_self p ts)
    have hvt : ∀ q ∈ ts, paiValid q = true := fun q hq => hv q (List.mem_cons_of_mem _ hq)
    have hsplit : ∀ i, tileCount (p :: ts) i
        = (if unify p == i then 1 else 0) + tileCount ts i := by
      intro i
      simp only [tileCount, List.countP_cons]
      by_cases he : unify p = i
      · simp [he] <;> omega
      · simp [he] <;> omega
    have hmap : validCodes.map (tileCount (p :: ts))
        = validCodes.map (fun i => (if unify p == i then 1 else 0) + tileCount ts i) := by
      apply List.map_congr_left
      intro i _
      exact hsplit i
    rw [hmap]
    have hsum : (validCodes.map
        (fun i => (if unify p == i then 1 else 0) + tileCount ts i)).sum
        = (validCodes.map (fun i => if unify p == i then (1 : ℕ) else 0)).sum
          + (validCodes.map (tileCount ts)).sum := by
      induction validCodes with
      | nil => rfl
      | cons x xs ihx =>
        simp only [List.map_cons, List.sum_cons]
        rw [ihx]
        ring
    rw [hsum, sum_indicator_eq_count (unify p) validCodes, ih hvt]
    have hone : validCodes.count (unify p) = 1 :=
      List.count_eq_one_of_mem (by decide) (unify_mem_validCodes p hvp)
    rw [hone]
    simp
    omega

theorem chiitoi_bounds (tiles : List ℕ) (hl : legalHand tiles) :
    -1 ≤ (ShantenHelper.new tiles).get_chiitoi_shanten ∧
    (ShantenHelper.new tiles).get_chiitoi_shanten ≤ 6 := by
  obtain ⟨hlen, hv, hcap⟩ := hl
  rw [(chiitoi_closed_form).1 tiles]
  have hlen2 : ¬ ((tiles.length : ℤ) < 13) := by
    rcases hlen with h | h <;> rw [h] <;> decide
  rw [if_neg hlen2]
  have hcap2 : ∀ i ∈ validCodes, tileCount tiles i ≤ 4 := hcap
  obtain ⟨hs1, hs2, hs3⟩ := sums_ineq validCodes (tileCount tiles) hcap2
  rw [sum_tileCount tiles hv] at hs1 hs2 hs3
  set P := validCodes.countP (fun i => decide (2 ≤ tileCount tiles i)) with hP
  set K := validCodes.countP (fun i => decide (0 < tileCount tiles i)) with hKdef
  have hlen3 : 13 ≤ tiles.length ∧ tiles.length ≤ 14 := by
    rcases hlen with h | h <;> omega
  rcases le_total ((7 : ℤ) - K) 0 with hm | hm
  · rw [max_eq_left hm]
    constructor <;> omega
  · rw [max_eq_right hm]
    constructor <;> omega

set_option maxRecDepth 100000

/-- C4: at every leaf of the partial-group search where no tiles remain
unclassified (and no earlier guard fired), the candidate shanten equals
9 minus twice the complete groups minus the partial groups minus twice
the eye flag minus the called-meld count (14 minus the concealed-tile
count, divided by 3 with truncation) plus the unclamped penalty of
groups used minus 5; the running minimum shanten and maximum c are
updated with the leaf values. -/
theorem c4_leaf_scoring (n : ℕ) (h : ShantenHelper) (b : ℕ) (s cm k e m d : ℤ)
    (hs : s ≠ -1) (hmd : m + d ≤ h.num_tehai) (hrem : h.num_pais_rem = 0)
    (hprune : ¬ (h.num_pais_rem < cm - (3 * m + 2 * d + 2 * e))) :
    search_by_take_2 (n + 1) h b s cm k e m d =
      some (h,
        min s (9 - 2 * m - d - 2 * e - Int.tdiv (14 - h.num_tehai) 3 + (m + d + e - 5)),
        max cm (3 * m + 2 * d + 2 * e)) := by
  show (if s = -1 ∨ h.num_tehai < m + d then some (h, s, cm)
    else
      let c := 3 * m + 2 * d + 2 * e
      if h.num_pais_rem < cm - c then some (h, s, cm)
      else if h.num_pais_rem = 0 then
        let penalty := m + d + e - 5
        let num_fuuros := Int.tdiv (14 - h.num_tehai) 3
        let cur_s := 9 - 2 * m - d - 2 * e - num_fuuros + penalty
        some (h, min s cur_s, max cm c)
      else _) = _
  rw [if_neg (by push_neg; exact ⟨hs, by omega⟩)]
  show (if h.num_pais_rem < cm - (3 * m + 2 * d + 2 * e) then some (h, s, cm)
    else if h.num_pais_rem = 0 then
      some (h,
        min s (9 - 2 * m - d - 2 * e - Int.tdiv (14 - h.num_tehai) 3 + (m + d + e - 5)),
        max cm (3 * m + 2 * d + 2 * e))
    else _) = _
  rw [if_neg hprune, if_pos hrem]

/-- Witness for C4 at the empty count state: the leaf value evaluates to
min 8 (9 minus 14 div 3 minus 5) = 0. -/
theorem c4_leaf_scoring_witness :
    search_by_take_2 1 (ShantenHelper.new []) 0 8 0 0 0 0 0
      = some (ShantenHelper.new [], 0, 0) := by
  rw [c4_leaf_scoring 0 (ShantenHelper.new []) 0 8 0 0 0 0 0 (by decide) (by decide)
    (by decide) (by decide)]
  rfl

/-- C2 is a code bug, witnessed here: on the one-tile input holding a
single East (code 41, count 1), the standard-shape search returns with
the East count at 0 although it was 1 at entry, because try_take_1
removes two copies from the count array while rollback_pais restores
only one; the remaining-tile cursor is restored to 1.  The spec says the
scratch state is always fully restored before the search returns. -/
theorem c2_take1_breaks_restoration :
    ((ShantenHelper.new [41]).get_normal_shanten (fuelFor (ShantenHelper.new [41]))).map
        (fun r => (r.1.pais.getD 41 0, r.1.num_pais_rem, r.2))
      = some (0, 1, 0) ∧
    (ShantenHelper.new [41]).pais.getD 41 0 = 1 ∧
    (ShantenHelper.new [41]).num_pais_rem = 1 := by
  refine ⟨by decide, by decide, by decide⟩

/-- C1 (amended): calc_shanten evaluates the three shape models over the
counts of the concealed hand tiles only and returns their minimum; the
result is independent of the meld list. -/
theorem c1_amended_hand_only_minimum (st : State) :
    st.calc_shanten =
      min (min (ShantenHelper.new st.tehai).get_kokushi_shanten
        (ShantenHelper.new st.tehai).get_chiitoi_shanten)
        (ShantenHelper.new st.tehai).normal_shanten_value ∧
    ∀ fs : List Fuuro, State.calc_shanten ⟨st.actor, st.tehai, fs⟩ = st.calc_shanten :=
  ⟨rfl, fun _ => rfl⟩

/-- Witness for C1 (amended) at a concrete state. -/
theorem c1_amended_hand_only_minimum_witness :
    State.calc_shanten ⟨0, [45], [Fuuro.ankan (Consumed.fromList [41, 41, 41, 41])]⟩ =
      min (min (ShantenHelper.new [45]).get_kokushi_shanten
        (ShantenHelper.new [45]).get_chiitoi_shanten)
        (ShantenHelper.new [45]).normal_shanten_value ∧
    ∀ fs : List Fuuro,
      State.calc_shanten ⟨0, [45], fs⟩ =
        State.calc_shanten ⟨0, [45], [Fuuro.ankan (Consumed.fromList [41, 41, 41, 41])]⟩ :=
  c1_amended_hand_only_minimum ⟨0, [45], [Fuuro.ankan (Consumed.fromList [41, 41, 41, 41])]⟩

/-- Counterexample for C1: on a seat holding one White Dragon with four
concealed kans recorded, the engine translated from the source (counts
from the hand only) returns 0, while the evaluation the claim describes
(counts over hand plus flattened melds) returns 1. -/
theorem c1_counterexample_melds_not_flattened :
    State.calc_shanten
        ⟨0, [45], [Fuuro.ankan (Consumed.fromList [41, 41, 41, 41]),
                   Fuuro.ankan (Consumed.fromList [42, 42, 42, 42]),
                   Fuuro.ankan (Consumed.fromList [43, 43, 43, 43]),
                   Fuuro.ankan (Consumed.fromList [44, 44, 44, 44])]⟩ = 0 ∧
    State.calc_shanten_flattened
        ⟨0, [45], [Fuuro.ankan (Consumed.fromList [41, 41, 41, 41]),
                   Fuuro.ankan (Consumed.fromList [42, 42, 42, 42]),
                   Fuuro.ankan (Consumed.fromList [43, 43, 43, 43]),
                   Fuuro.ankan (Consumed.fromList [44, 44, 44, 44])]⟩ = 1 ∧
    (0 : ℤ) ≠ 1 := by
  refine ⟨by decide, by decide, by decide⟩

theorem tryTake3Go_effect (h : ShantenHelper) :
    ∀ (f i : ℕ) (r : List ℕ × ℕ × ShantenHelper), tryTake3Go h f i = some r →
      r.2.2.num_pais_rem = h.num_pais_rem - 3 ∧ r.2.2.num_tehai = h.num_tehai ∧
      r.1.length = 3 := by
  intro f
  induction f with
  | zero => intro i r hr; simp [tryTake3Go] at hr
  | succ f ih =>
    intro i r hr
    simp only [tryTake3Go] at hr
    split_ifs at hr with h1 h2 h3 h4 h5
    · exact ih (i + 1) r hr
    · cases Option.some.inj hr
      refine ⟨by simp [ShantenHelper.take], by simp [ShantenHelper.take], by simp⟩
    · cases Option.some.inj hr
      refine ⟨by simp [ShantenHelper.take], by simp [ShantenHelper.take], by simp⟩
    · exact ih (i + 1) r hr
    · cases Option.some.inj hr
      refine ⟨by simp [ShantenHelper.take], by simp [ShantenHelper.take], by simp⟩
    · exact ih (i + 1) r hr

theorem tryPairGo_effect (h : ShantenHelper) :
    ∀ (f i : ℕ) (r : List ℕ × ℕ × ShantenHelper), tryPairGo h f i = some r →
      r.2.2.num_pais_rem = h.num_pais_rem - 2 ∧ r.2.2.num_tehai = h.num_tehai ∧
      r.1.length = 2 := by
  intro f
  induction f with
  | zero => intro i r hr; simp [tryPairGo] at hr
  | succ f ih =>
    intro i r hr
    simp only [tryPairGo] at hr
    split_ifs at hr with h1
    · cases Option.some.inj hr
      refine ⟨by simp [ShantenHelper.take], by simp [ShantenHelper.take], by simp⟩
    · exact ih (i + 1) r hr

theorem tryDaziGo_effect (h : ShantenHelper) :
    ∀ (f i : ℕ) (r : List ℕ × ℕ × ShantenHelper), tryDaziGo h f i = some r →
      r.2.2.num_pais_rem = h.num_pais_rem - 2 ∧ r.2.2.num_tehai = h.num_tehai ∧
      r.1.length = 2 := by
  intro f
  induction f with
  | zero => intro i r hr; simp [tryDaziGo] at hr
  | succ f ih =>
    intro i r hr
    simp only [tryDaziGo] at hr
    split_ifs at hr with h1 h2 h3 h4
    · exact ih (i + 1) r hr
    · cases Option.some.inj hr
      refine ⟨by simp [ShantenHelper.take], by simp [ShantenHelper.take], by simp⟩
    · cases Option.some.inj hr
      refine ⟨by simp [ShantenHelper.take], by simp [ShantenHelper.take], by simp⟩
    · exact ih (i + 1) r hr
    · exact ih (i + 1) r hr

theorem try_take_2_effect (h : ShantenHelper) (i : ℕ) (r : List ℕ × ℕ × ShantenHelper)
    (hr : h.try_take_2 i = some r) :
    r.2.2.num_pais_rem = h.num_pais_rem - 2 ∧ r.2.2.num_tehai = h.num_tehai ∧
    r.1.length = 2 := by
  unfold ShantenHelper.try_take_2 at hr
  rcases hp : tryPairGo h (48 - i) i with _ | r2
  · rw [hp] at hr
    exact tryDaziGo_effect h (38 - i) i r hr
  · rw [hp] at hr
    cases Option.some.inj hr
    exact tryPairGo_effect h (48 - i) i r hp

theorem tryTake1Go_effect (h : ShantenHelper) :
    ∀ (f i : ℕ) (r : ℕ × ShantenHelper), tryTake1Go h f i = some r →
      r.2.num_pais_rem = h.num_pais_rem - 1 ∧ r.2.num_tehai = h.num_tehai := by
  intro f
  induction f with
  | zero => intro i r hr; simp [tryTake1Go] at hr
  | succ f ih =>
    intro i r hr
    simp only [tryTake1Go] at hr
    split_ifs at hr with h1 h2
    · exact ih (i + 1) r hr
    · cases Option.some.inj hr
      refine ⟨by simp [ShantenHelper.take], by simp [ShantenHelper.take]⟩
    · exact ih (i + 1) r hr

theorem rollback_effect (h : ShantenHelper) (ps : List ℕ) :
    (h.rollback_pais ps).num_pais_rem = h.num_pais_rem + ps.length ∧
    (h.rollback_pais ps).num_tehai = h.num_tehai := by
  refine ⟨rfl, rfl⟩

theorem prod3_inj {α β γ : Type} {a c : α} {b d : β} {x y : γ}
    (h : (a, b, x) = (c, d, y)) : a = c ∧ b = d ∧ x = y :=
  ⟨congrArg Prod.fst h, congrArg Prod.fst (congrArg Prod.snd h),
   congrArg Prod.snd (congrArg Prod.snd h)⟩

theorem take_eye_effect (h : ShantenHelper) (p : ℕ) :
    (h.take_eye p).num_pais_rem = h.num_pais_rem - 2 ∧
    (h.take_eye p).num_tehai = h.num_tehai := by
  refine ⟨by simp [ShantenHelper.take_eye, ShantenHelper.take], rfl⟩

theorem singlesFold_state (n : ℕ) (b : ℕ) (k e m d : ℤ) (R T : ℤ)
    (IH : ∀ (hx : ShantenHelper) (bx : ℕ) (sx cmx : ℤ) hx2 sx2 cmx2,
      search_by_take_2 n hx bx sx cmx k e m d = some (hx2, sx2, cmx2) →
      hx2.num_pais_rem = hx.num_pais_rem ∧ hx2.num_tehai = hx.num_tehai) :
    ∀ (l : List ℕ) (acc : Option (ShantenHelper × ℤ × ℤ)),
      (∀ hh ss cc, acc = some (hh, ss, cc) →
        hh.num_pais_rem = R ∧ hh.num_tehai = T) →
      ∀ hh2 ss2 cc2,
        l.foldl (singlesStep (search_by_take_2 n) b k e m d) acc = some (hh2, ss2, cc2) →
        hh2.num_pais_rem = R ∧ hh2.num_tehai = T := by
  intro l
  induction l with
  | nil =>
    intro acc hacc hh2 ss2 cc2 heq
    exact hacc hh2 ss2 cc2 heq
  | cons a l ihl =>
    intro acc hacc hh2 ss2 cc2 heq
    rw [List.foldl_cons] at heq
    refine ihl _ ?_ hh2 ss2 cc2 heq
    intro hh ss cc hstep
    rcases acc with _ | ⟨⟨ha, sa, ca⟩⟩
    · simp [singlesStep] at hstep
    · obtain ⟨hra, hta⟩ := hacc ha sa ca rfl
      rcases ht1 : ha.try_take_1 a with _ | ⟨pai, ha1⟩
      · simp only [singlesStep, ht1] at hstep
        obtain ⟨e1, e2, e3⟩ := prod3_inj (Option.some.inj hstep)
        subst e1
        exact ⟨hra, hta⟩
      · simp only [singlesStep, ht1] at hstep
        rcases hrec : search_by_take_2 n ha1 (b + 1) sa ca k e m d with _ | ⟨⟨A, B, C⟩⟩
        · simp only [hrec] at hstep; simp at hstep
        · simp only [hrec] at hstep
          obtain ⟨e1, e2, e3⟩ := prod3_inj (Option.some.inj hstep)
          subst e1
          obtain ⟨hA1, hA2⟩ := IH ha1 (b + 1) sa ca A B C hrec
          obtain ⟨ht1a, ht1b⟩ :=
            tryTake1Go_effect ha (48 - a) a (pai, ha1) ht1
          simp only at ht1a ht1b
          constructor
          · show (A.rollback_pais [pai]).num_pais_rem = R
            rw [(rollback_effect A [pai]).1, hA1, ht1a, hra]
            simp
          · show (A.rollback_pais [pai]).num_tehai = T
            rw [(rollback_effect A [pai]).2, hA2, ht1b, hta]

theorem singlesFold_bounds (n : ℕ) (b : ℕ) (k e m d : ℤ) (R T : ℤ)
    (hm : 0 ≤ m) (hd : 0 ≤ d) (he : e = 0 ∨ e = 1)
    (hRT : R + 3 * m + 2 * d + 2 * e ≤ T) (hT : T = 13 ∨ T = 14)
    (IH : ∀ (hx : ShantenHelper) (bx : ℕ) (sx cmx : ℤ) hx2 sx2 cmx2,
      search_by_take_2 n hx bx sx cmx k e m d = some (hx2, sx2, cmx2) →
      hx2.num_pais_rem = hx.num_pais_rem ∧ hx2.num_tehai = hx.num_tehai ∧
      (0 ≤ m → 0 ≤ d → (e = 0 ∨ e = 1) →
        hx.num_pais_rem + 3 * m + 2 * d + 2 * e ≤ hx.num_tehai →
        (hx.num_tehai = 13 ∨ hx.num_tehai = 14) →
        -1 ≤ sx → sx ≤ 8 → -1 ≤ sx2 ∧ sx2 ≤ 8)) :
    ∀ (l : List ℕ) (acc : Option (ShantenHelper × ℤ × ℤ)),
      (∀ hh ss cc, acc = some (hh, ss, cc) →
        (hh.num_pais_rem ≤ R ∧ hh.num_tehai = T) ∧ (-1 ≤ ss ∧ ss ≤ 8)) →
      ∀ hh2 ss2 cc2,
        l.foldl (singlesStep (search_by_take_2 n) b k e m d) acc = some (hh2, ss2, cc2) →
        -1 ≤ ss2 ∧ ss2 ≤ 8 := by
  intro l
  induction l with
  | nil =>
    intro acc hacc hh2 ss2 cc2 heq
    exact (hacc hh2 ss2 cc2 heq).2
  | cons a l ihl =>
    intro acc hacc hh2 ss2 cc2 heq
    rw [List.foldl_cons] at heq
    refine ihl _ ?_ hh2 ss2 cc2 heq
    intro hh ss cc hstep
    rcases acc with _ | ⟨⟨ha, sa, ca⟩⟩
    · simp [singlesStep] at hstep
    · obtain ⟨⟨hra, hta⟩, hsa1, hsa2⟩ := hacc ha sa ca rfl
      rcases ht1 : ha.try_take_1 a with _ | ⟨pai, ha1⟩
      · simp only [singlesStep, ht1] at hstep
        obtain ⟨e1, e2, e3⟩ := prod3_inj (Option.some.inj hstep)
        subst e1; subst e2
        exact ⟨⟨hra, hta⟩, hsa1, hsa2⟩
      · simp only [singlesStep, ht1] at hstep
        rcases hrec : search_by_take_2 n ha1 (b + 1) sa ca k e m d with _ | ⟨⟨A, B, C⟩⟩
        · simp only [hrec] at hstep; simp at hstep
        · simp only [hrec] at hstep
          obtain ⟨e1, e2, e3⟩ := prod3_inj (Option.some.inj hstep)
          subst e1; subst e2
          obtain ⟨ht1a, ht1b⟩ := tryTake1Go_effect ha (48 - a) a (pai, ha1) ht1
          simp only at ht1a ht1b
          obtain ⟨hA1, hA2, hAb⟩ := IH ha1 (b + 1) sa ca A B C hrec
          have hBb : -1 ≤ B ∧ B ≤ 8 := by
            refine hAb hm hd he ?_ ?_ hsa1 hsa2
            · rw [ht1a, ht1b, hta]
              omega
            · rw [ht1b, hta]
              exact hT
          refine ⟨⟨?_, ?_⟩, hBb⟩
          · rw [(rollback_effect A [pai]).1, hA1, ht1a]
            simp
            omega
          · rw [(rollback_effect A [pai]).2, hA2, ht1b, hta]

theorem search2_bounds :
    ∀ (n : ℕ) (h : ShantenHelper) (b : ℕ) (s cm k e m d : ℤ)
      (h2 : ShantenHelper) (s2 cm2 : ℤ),
      search_by_take_2 n h b s cm k e m d = some (h2, s2, cm2) →
      h2.num_pais_rem = h.num_pais_rem ∧ h2.num_tehai = h.num_tehai ∧
      (0 ≤ m → 0 ≤ d → (e = 0 ∨ e = 1) →
        h.num_pais_rem + 3 * m + 2 * d + 2 * e ≤ h.num_tehai →
        (h.num_tehai = 13 ∨ h.num_tehai = 14) →
        -1 ≤ s → s ≤ 8 → -1 ≤ s2 ∧ s2 ≤ 8) := by
  intro n
  induction n with
  | zero =>
    intro h b s cm k e m d h2 s2 cm2 heq
    simp [search_by_take_2] at heq
  | succ n ih =>
    intro h b s cm k e m d h2 s2 cm2 heq
    simp only [search_by_take_2] at heq
    split_ifs at heq with hg1 hg2 hg3
    · obtain ⟨e1, e2, e3⟩ := prod3_inj (Option.some.inj heq)
      subst e1; subst e2; subst e3
      exact ⟨rfl, rfl, fun _ _ _ _ _ hs1 hs2 => ⟨hs1, hs2⟩⟩
    · obtain ⟨e1, e2, e3⟩ := prod3_inj (Option.some.inj heq)
      subst e1; subst e2; subst e3
      exact ⟨rfl, rfl, fun _ _ _ _ _ hs1 hs2 => ⟨hs1, hs2⟩⟩
    · obtain ⟨e1, e2, e3⟩ := prod3_inj (Option.some.inj heq)
      subst e1; subst e2; subst e3
      refine ⟨rfl, rfl, ?_⟩
      intro hm hd he hinv hteh hs1 hs2
      have hdiv : Int.tdiv (14 - h.num_tehai) 3 = 0 := by
        rcases hteh with ht | ht <;> rw [ht] <;> decide
      have hcur : -1 ≤ 9 - 2 * m - d - 2 * e - Int.tdiv (14 - h.num_tehai) 3
          + (m + d + e - 5) := by
        rw [hdiv]
        rcases hteh with ht | ht <;> rcases he with he | he <;> omega
      exact ⟨le_min hs1 hcur, le_trans (min_le_left _ _) hs2⟩
    · rcases htp : h.try_take_2 b with _ | ⟨dazi, ni, h1⟩
      · simp only [htp] at heq
        have hstate := singlesFold_state n b k e m d h.num_pais_rem h.num_tehai
          (fun hx bx sx cmx hx2 sx2 cmx2 hxx =>
            ⟨(ih hx bx sx cmx k e m d hx2 sx2 cmx2 hxx).1,
             (ih hx bx sx cmx k e m d hx2 sx2 cmx2 hxx).2.1⟩)
          (List.range h.num_pais_rem.toNat) (some (h, s, cm))
          (fun hh ss cc hx => by
            obtain ⟨e1, e2, e3⟩ := prod3_inj (Option.some.inj hx)
            subst e1; exact ⟨rfl, rfl⟩)
          h2 s2 cm2 heq
        refine ⟨hstate.1, hstate.2, ?_⟩
        intro hm hd he hinv hteh hs1 hs2
        exact singlesFold_bounds n b k e m d h.num_pais_rem h.num_tehai
          hm hd he hinv hteh (fun hx bx sx cmx => ih hx bx sx cmx k e m d)
          (List.range h.num_pais_rem.toNat) (some (h, s, cm))
          (fun hh ss cc hx => by
            obtain ⟨e1, e2, e3⟩ := prod3_inj (Option.some.inj hx)
            subst e1; subst e2
            exact ⟨⟨le_refl _, rfl⟩, hs1, hs2⟩)
          h2 s2 cm2 heq
      · simp only [htp] at heq
        rcases hrec : search_by_take_2 n h1 ni s cm k e m (d + 1) with _ | ⟨⟨A, B, C⟩⟩
        · simp only [hrec] at heq; simp at heq
        · simp only [hrec] at heq
          obtain ⟨hq1, hq2, hq3⟩ := try_take_2_effect h b (dazi, ni, h1) htp
          simp only at hq1 hq2 hq3
          obtain ⟨hA1, hA2, hAb⟩ := ih h1 ni s cm k e m (d + 1) A B C hrec
          have haccRem : (A.rollback_pais dazi).num_pais_rem = h.num_pais_rem := by
            rw [(rollback_effect A dazi).1, hA1, hq1, hq3]
            simp
          have haccTeh : (A.rollback_pais dazi).num_tehai = h.num_tehai := by
            rw [(rollback_effect A dazi).2, hA2, hq2]
          have hstate := singlesFold_state n b k e m d h.num_pais_rem h.num_tehai
            (fun hx bx sx cmx hx2 sx2 cmx2 hxx =>
              ⟨(ih hx bx sx cmx k e m d hx2 sx2 cmx2 hxx).1,
               (ih hx bx sx cmx k e m d hx2 sx2 cmx2 hxx).2.1⟩)
            (List.range (A.rollback_pais dazi).num_pais_rem.toNat)
            (some (A.rollback_pais dazi, B, C))
            (fun hh ss cc hx => by
              obtain ⟨e1, e2, e3⟩ := prod3_inj (Option.some.inj hx)
              subst e1; exact ⟨haccRem, haccTeh⟩)
            h2 s2 cm2 heq
          refine ⟨hstate.1, hstate.2, ?_⟩
          intro hm hd he hinv hteh hs1 hs2
          have hBb : -1 ≤ B ∧ B ≤ 8 := by
            refine hAb hm (by omega) he ?_ ?_ hs1 hs2
            · rw [hq1, hq2]
              omega
            · rw [hq2]
              exact hteh
          exact singlesFold_bounds n b k e m d h.num_pais_rem h.num_tehai
            hm hd he hinv hteh (fun hx bx sx cmx => ih hx bx sx cmx k e m d)
            (List.range (A.rollback_pais dazi).num_pais_rem.toNat)
            (some (A.rollback_pais dazi, B, C))
            (fun hh ss cc hx => by
              obtain ⟨e1, e2, e3⟩ := prod3_inj (Option.some.inj hx)
              subst e1; subst e2
              exact ⟨⟨le_of_eq haccRem, haccTeh⟩, hBb⟩)
            h2 s2 cm2 heq

theorem search3_bounds :
    ∀ (n : ℕ) (h : ShantenHelper) (lvl : ℤ) (b : ℕ) (s cm k e m : ℤ)
      (h2 : ShantenHelper) (s2 cm2 : ℤ),
      search_by_take_3 n h lvl b s cm k e m = some (h2, s2, cm2) →
      h2.num_pais_rem = h.num_pais_rem ∧ h2.num_tehai = h.num_tehai ∧
      (0 ≤ m → (e = 0 ∨ e = 1) →
        h.num_pais_rem + 3 * m + 2 * e ≤ h.num_tehai →
        (h.num_tehai = 13 ∨ h.num_tehai = 14) →
        -1 ≤ s → s ≤ 8 → -1 ≤ s2 ∧ s2 ≤ 8) := by
  intro n
  induction n with
  | zero =>
    intro h lvl b s cm k e m h2 s2 cm2 heq
    simp [search_by_take_3] at heq
  | succ n ih =>
    intro h lvl b s cm k e m h2 s2 cm2 heq
    simp only [search_by_take_3] at heq
    split_ifs at heq with hg1
    · obtain ⟨hA1, hA2, hAb⟩ := search2_bounds n h 0 s cm k e m 0 h2 s2 cm2 heq
      refine ⟨hA1, hA2, ?_⟩
      intro hm he hinv hteh hs1 hs2
      exact hAb hm (le_refl 0) he (by omega) hteh hs1 hs2
    · rcases ht3 : h.try_take_3 b with _ | ⟨meld, ni, h1⟩
      · simp only [ht3] at heq
        obtain ⟨hA1, hA2, hAb⟩ :=
          ih h lvl (h.next_not_zero (b + 1)) s cm k e m h2 s2 cm2 heq
        exact ⟨hA1, hA2, hAb⟩
      · simp only [ht3] at heq
        rcases hrec : search_by_take_3 n h1 (lvl + 1) ni s cm k e (m + 1)
          with _ | ⟨⟨A, B, C⟩⟩
        · simp only [hrec] at heq; simp at heq
        · simp only [hrec] at heq
          obtain ⟨hq1, hq2, hq3⟩ := tryTake3Go_effect h (48 - b) b (meld, ni, h1) ht3
          simp only at hq1 hq2 hq3
          obtain ⟨hA1, hA2, hAb⟩ := ih h1 (lvl + 1) ni s cm k e (m + 1) A B C hrec
          have haccRem : (A.rollback_pais meld).num_pais_rem = h.num_pais_rem := by
            rw [(rollback_effect A meld).1, hA1, hq1, hq3]
            simp
          have haccTeh : (A.rollback_pais meld).num_tehai = h.num_tehai := by
            rw [(rollback_effect A meld).2, hA2, hq2]
          obtain ⟨hB1, hB2, hBb⟩ :=
            ih (A.rollback_pais meld) lvl ((A.rollback_pais meld).next_not_zero (b + 1))
              B C k e m h2 s2 cm2 heq
          refine ⟨by rw [hB1, haccRem], by rw [hB2, haccTeh], ?_⟩
          intro hm he hinv hteh hs1 hs2
          have hBbounds : -1 ≤ B ∧ B ≤ 8 := by
            refine hAb (by omega) he ?_ ?_ hs1 hs2
            · rw [hq1, hq2]
              omega
            · rw [hq2]
              exact hteh
          refine hBb hm he ?_ ?_ hBbounds.1 hBbounds.2
          · rw [haccRem, haccTeh]
            exact hinv
          · rw [haccTeh]
            exact hteh

theorem eyesFold_bounds (fuel : ℕ) (k : ℤ) (T : ℤ) (hT : T = 13 ∨ T = 14) :
    ∀ (l : List ℕ) (acc : Option (ShantenHelper × ℤ × ℤ)),
      (∀ hh ss cc, acc = some (hh, ss, cc) →
        (hh.num_pais_rem = T ∧ hh.num_tehai = T) ∧ (-1 ≤ ss ∧ ss ≤ 8)) →
      ∀ hh2 ss2 cc2,
        l.foldl (eyeStep fuel k) acc = some (hh2, ss2, cc2) →
        (hh2.num_pais_rem = T ∧ hh2.num_tehai = T) ∧ (-1 ≤ ss2 ∧ ss2 ≤ 8) := by
  intro l
  induction l with
  | nil =>
    intro acc hacc hh2 ss2 cc2 heq
    exact hacc hh2 ss2 cc2 heq
  | cons a l ihl =>
    intro acc hacc hh2 ss2 cc2 heq
    rw [List.foldl_cons] at heq
    refine ihl _ ?_ hh2 ss2 cc2 heq
    intro hh ss cc hstep
    rcases acc with _ | ⟨⟨ha, sa, ca⟩⟩
    · simp [eyeStep] at hstep
    · obtain ⟨⟨hra, hta⟩, hsa1, hsa2⟩ := hacc ha sa ca rfl
      rcases hrec : search_by_take_3 fuel (ha.take_eye a) 0 11 sa ca k 1 0
        with _ | ⟨⟨A, B, C⟩⟩
      · simp only [eyeStep, hrec] at hstep; simp at hstep
      · simp only [eyeStep, hrec] at hstep
        obtain ⟨e1, e2, e3⟩ := prod3_inj (Option.some.inj hstep)
        subst e1; subst e2
        obtain ⟨hA1, hA2, hAb⟩ :=
          search3_bounds fuel (ha.take_eye a) 0 11 sa ca k 1 0 A B C hrec
        obtain ⟨hte1, hte2⟩ := take_eye_effect ha a
        have hBb : -1 ≤ B ∧ B ≤ 8 := by
          refine hAb (le_refl 0) (Or.inr rfl) ?_ ?_ hsa1 hsa2
          · rw [hte1, hte2, hra, hta]
            omega
          · rw [hte2, hta]
            exact hT
        refine ⟨⟨?_, ?_⟩, hBb⟩
        · rw [(rollback_effect A [a, a]).1, hA1, hte1, hra]
          simp
        · rw [(rollback_effect A [a, a]).2, hA2, hte2, hta]

theorem normal_value_bounds (h : ShantenHelper)
    (hrt : h.num_pais_rem = h.num_tehai)
    (ht : h.num_tehai = 13 ∨ h.num_tehai = 14) :
    -1 ≤ h.normal_shanten_value ∧ h.normal_shanten_value ≤ 8 := by
  unfold ShantenHelper.normal_shanten_value
  rcases hr : h.get_normal_shanten (fuelFor h) with _ | ⟨⟨h5, s5⟩⟩
  · exact ⟨by decide, by decide⟩
  · simp only
    unfold ShantenHelper.get_normal_shanten at hr
    rcases hae : (eyesOf h.pais).foldl
        (eyeStep (fuelFor h) (Int.tdiv (h.num_pais_rem - 2) 3)) (some (h, 8, 0))
      with _ | ⟨⟨h4, s4, c4⟩⟩
    · simp only [hae] at hr; simp at hr
    · simp only [hae] at hr
      obtain ⟨⟨hr4, ht4⟩, hs4⟩ := eyesFold_bounds (fuelFor h)
        (Int.tdiv (h.num_pais_rem - 2) 3) h.num_tehai ht
        (eyesOf h.pais) (some (h, 8, 0))
        (fun hh ss cc hx => by
          obtain ⟨e1, e2, e3⟩ := prod3_inj (Option.some.inj hx)
          subst e1; subst e2
          exact ⟨⟨hrt, rfl⟩, by decide, by decide⟩)
        h4 s4 c4 hae
      rcases hfin : search_by_take_3 (fuelFor h) h4 0 11 s4 c4
          (Int.tdiv (h.num_pais_rem - 2) 3) 0 0 with _ | ⟨⟨A, B, C⟩⟩
      · simp only [hfin] at hr; simp at hr
      · simp only [hfin] at hr
        obtain ⟨hA1, hA2, hAb⟩ :=
          search3_bounds (fuelFor h) h4 0 11 s4 c4
            (Int.tdiv (h.num_pais_rem - 2) 3) 0 0 A B C hfin
        have hBb : -1 ≤ B ∧ B ≤ 8 := by
          refine hAb (le_refl 0) (Or.inl rfl) ?_ ?_ hs4.1 hs4.2
          · rw [hr4, ht4]
            omega
          · rw [ht4]
            exact ht
        have hs5B : s5 = B := (congrArg Prod.snd (Option.some.inj hr)).symm
        rw [hs5B]
        exact hBb

/-- C3 (amended): for every legal 13-or-14-tile hand the standard-shape
result lies within -1 to 8; the kokushi result lies within -1 to 13 (the
closed form has no clamping, so it reaches -1 on a 14-tile hand of all
thirteen orphan kinds plus a duplicate, and 13 on a hand with no orphan
tiles); the chiitoi result lies within -1 to 6 (-1 on seven pairs at 14
tiles). -/
theorem c3_amended_shanten_ranges (tiles : List ℕ) (hl : legalHand tiles) :
    (-1 ≤ (ShantenHelper.new tiles).normal_shanten_value ∧
      (ShantenHelper.new tiles).normal_shanten_value ≤ 8) ∧
    (-1 ≤ (ShantenHelper.new tiles).get_kokushi_shanten ∧
      (ShantenHelper.new tiles).get_kokushi_shanten ≤ 13) ∧
    (-1 ≤ (ShantenHelper.new tiles).get_chiitoi_shanten ∧
      (ShantenHelper.new tiles).get_chiitoi_shanten ≤ 6) := by
  refine ⟨?_, kokushi_bounds tiles, chiitoi_bounds tiles hl⟩
  apply normal_value_bounds
  · rfl
  · have hT : (ShantenHelper.new tiles).num_tehai = (tiles.length : ℤ) := rfl
    rcases hl.1 with h | h
    · left; rw [hT, h]; decide
    · right; rw [hT, h]; decide

/-- Witness for C3 (amended) at a concrete legal 13-tile hand. -/
theorem c3_amended_shanten_ranges_witness :
    (-1 ≤ (ShantenHelper.new
        [11, 12, 13, 14, 15, 16, 17, 18, 19, 21, 22, 23, 24]).normal_shanten_value ∧
      (ShantenHelper.new
        [11, 12, 13, 14, 15, 16, 17, 18, 19, 21, 22, 23, 24]).normal_shanten_value ≤ 8) ∧
    (-1 ≤ (ShantenHelper.new
        [11, 12, 13, 14, 15, 16, 17, 18, 19, 21, 22, 23, 24]).get_kokushi_shanten ∧
      (ShantenHelper.new
        [11, 12, 13, 14, 15, 16, 17, 18, 19, 21, 22, 23, 24]).get_kokushi_shanten ≤ 13) ∧
    (-1 ≤ (ShantenHelper.new
        [11, 12, 13, 14, 15, 16, 17, 18, 19, 21, 22, 23, 24]).get_chiitoi_shanten ∧
      (ShantenHelper.new
        [11, 12, 13, 14, 15, 16, 17, 18, 19, 21, 22, 23, 24]).get_chiitoi_shanten ≤ 6) :=
  c3_amended_shanten_ranges [11, 12, 13, 14, 15, 16, 17, 18, 19, 21, 22, 23, 24]
    (by unfold legalHand; exact ⟨by decide, by decide, by decide⟩)

theorem getD_ne_zero_lt_length (l : List ℤ) (i : ℕ) (h : l.getD i 0 ≠ 0) :
    i < l.length := by
  by_contra h2
  push_neg at h2
  rw [List.getD_eq_getElem?_getD, List.getElem?_eq_none (by omega)] at h
  simp at h

theorem psum_set (l : List ℤ) :
    ∀ (i : ℕ) (v : ℤ), i < l.length →
      ((l.set i v).map Int.toNat).sum + (l.getD i 0).toNat
        = (l.map Int.toNat).sum + v.toNat := by
  induction l with
  | nil => intro i v hi; simp at hi
  | cons x xs ih =>
    intro i v hi
    cases i with
    | zero => simp [List.getD_cons_zero]; omega
    | succ j =>
      simp only [List.set_cons_succ, List.map_cons, List.sum_cons, List.getD_cons_succ]
      have := ih j v (by simpa using Nat.lt_of_succ_lt_succ hi)
      omega

theorem psum_set_le (l : List ℤ) (i : ℕ) (v : ℤ) (hv : v ≤ l.getD i 0) :
    ((l.set i v).map Int.toNat).sum ≤ (l.map Int.toNat).sum := by
  by_cases hi : i < l.length
  · have h := psum_set l i v hi
    have : v.toNat ≤ (l.getD i 0).toNat := Int.toNat_le_toNat hv
    omega
  · rw [List.set_eq_of_length_le (by omega)]

theorem psum_rollback_step (l : List ℤ) (p : ℕ) :
    ((l.set (unify p) (l.getD (unify p) 0 + 1)).map Int.toNat).sum
      ≤ (l.map Int.toNat).sum + 1 := by
  by_cases hi : unify p < l.length
  · have h := psum_set l (unify p) (l.getD (unify p) 0 + 1) hi
    have : (l.getD (unify p) 0 + 1).toNat ≤ (l.getD (unify p) 0).toNat + 1 := by
      omega
    omega
  · rw [List.set_eq_of_length_le (by omega)]
    omega

theorem psum_rollback (ps : List ℕ) :
    ∀ (l : List ℤ),
      ((ps.foldl (fun a p => a.set (unify p) (a.getD (unify p) 0 + 1)) l).map
        Int.toNat).sum ≤ (l.map Int.toNat).sum + ps.length := by
  induction ps with
  | nil => intro l; simp
  | cons p ps ih =>
    intro l
    rw [List.foldl_cons]
    have h1 := ih (l.set (unify p) (l.getD (unify p) 0 + 1))
    have h2 := psum_rollback_step l p
    simp only [List.length_cons]
    omega

theorem rollback_psum (h : ShantenHelper) (ps : List ℕ) :
    (((h.rollback_pais ps).pais).map Int.toNat).sum
      ≤ ((h.pais.map Int.toNat)).sum + ps.length :=
  psum_rollback ps h.pais

theorem psum_one_dec (l : List ℤ) (i : ℕ) (c : ℤ) (hi : 1 ≤ l.getD i 0)
    (hc : 1 ≤ c) (hcl : c - 1 ≤ l.getD i 0) :
    ((l.set i (l.getD i 0 - c)).map Int.toNat).sum + 1 ≤ (l.map Int.toNat).sum := by
  have hin : i < l.length := getD_ne_zero_lt_length _ _ (by omega)
  have hps := psum_set l i (l.getD i 0 - c) hin
  omega

theorem psum_exact_dec (l : List ℤ) (i : ℕ) (c : ℤ) (hc : 0 ≤ c)
    (hi : c ≤ l.getD i 0) (hi0 : l.getD i 0 ≠ 0) :
    ((l.set i (l.getD i 0 - c)).map Int.toNat).sum + c.toNat ≤ (l.map Int.toNat).sum := by
  have hin : i < l.length := getD_ne_zero_lt_length _ _ hi0
  have hps := psum_set l i (l.getD i 0 - c) hin
  omega

theorem psum_two_dec (l : List ℤ) (i j : ℕ) (hij : i ≠ j)
    (hi : 1 ≤ l.getD i 0) (hj : 1 ≤ l.getD j 0) :
    (((l.set i (l.getD i 0 - 1)).set j
        ((l.set i (l.getD i 0 - 1)).getD j 0 - 1)).map Int.toNat).sum + 2
      ≤ (l.map Int.toNat).sum := by
  have hin1 : i < l.length := getD_ne_zero_lt_length _ _ (by omega)
  have hp1 := psum_set l i (l.getD i 0 - 1) hin1
  have hg2 : (l.set i (l.getD i 0 - 1)).getD j 0 = l.getD j 0 :=
    getD_set_ne48 _ _ _ _ hij
  have hin2 : j < (l.set i (l.getD i 0 - 1)).length :=
    getD_ne_zero_lt_length _ _ (by omega)
  have hp2 := psum_set (l.set i (l.getD i 0 - 1)) j
    ((l.set i (l.getD i 0 - 1)).getD j 0 - 1) hin2
  omega

theorem psum_three_dec (l : List ℤ) (i : ℕ)
    (h1 : 1 ≤ l.getD i 0) (h2 : 1 ≤ l.getD (i + 1) 0) (h3 : 1 ≤ l.getD (i + 2) 0) :
    ((((l.set i (l.getD i 0 - 1)).set (i + 1)
        ((l.set i (l.getD i 0 - 1)).getD (i + 1) 0 - 1)).set (i + 2)
        (((l.set i (l.getD i 0 - 1)).set (i + 1)
          ((l.set i (l.getD i 0 - 1)).getD (i + 1) 0 - 1)).getD (i + 2) 0 - 1)).map
      Int.toNat).sum + 3 ≤ (l.map Int.toNat).sum := by
  have hin1 : i < l.length := getD_ne_zero_lt_length _ _ (by omega)
  have hp1 := psum_set l i (l.getD i 0 - 1) hin1
  have hg2 : (l.set i (l.getD i 0 - 1)).getD (i + 1) 0 = l.getD (i + 1) 0 :=
    getD_set_ne48 _ _ _ _ (by omega)
  have hin2 : i + 1 < (l.set i (l.getD i 0 - 1)).length :=
    getD_ne_zero_lt_length _ _ (by omega)
  have hp2 := psum_set (l.set i (l.getD i 0 - 1)) (i + 1)
    ((l.set i (l.getD i 0 - 1)).getD (i + 1) 0 - 1) hin2
  have hg3 : ((l.set i (l.getD i 0 - 1)).set (i + 1)
      ((l.set i (l.getD i 0 - 1)).getD (i + 1) 0 - 1)).getD (i + 2) 0
      = (l.set i (l.getD i 0 - 1)).getD (i + 2) 0 :=
    getD_set_ne48 _ _ _ _ (by omega)
  have hg3b : (l.set i (l.getD i 0 - 1)).getD (i + 2) 0 = l.getD (i + 2) 0 :=
    getD_set_ne48 _ _ _ _ (by omega)
  have hin3 : i + 2 < ((l.set i (l.getD i 0 - 1)).set (i + 1)
      ((l.set i (l.getD i 0 - 1)).getD (i + 1) 0 - 1)).length :=
    getD_ne_zero_lt_length _ _ (by omega)
  have hp3 := psum_set ((l.set i (l.getD i 0 - 1)).set (i + 1)
      ((l.set i (l.getD i 0 - 1)).getD (i + 1) 0 - 1)) (i + 2)
    (((l.set i (l.getD i 0 - 1)).set (i + 1)
      ((l.set i (l.getD i 0 - 1)).getD (i + 1) 0 - 1)).getD (i + 2) 0 - 1) hin3
  omega

theorem tryTake3Go_psum (h : ShantenHelper) :
    ∀ (f i : ℕ) (r : List ℕ × ℕ × ShantenHelper), tryTake3Go h f i = some r →
      (r.2.2.pais.map Int.toNat).sum + 3 ≤ (h.pais.map Int.toNat).sum := by
  intro f
  induction f with
  | zero => intro i r hr; simp [tryTake3Go] at hr
  | succ f ih =>
    intro i r hr
    simp only [tryTake3Go] at hr
    split_ifs at hr with h1 h2 h3 h4 h5
    · exact ih (i + 1) r hr
    · have hr2 := (Option.some.inj hr).symm
      subst hr2
      show ((h.pais.set i (h.pais.getD i 0 - 3)).map Int.toNat).sum + 3
        ≤ (h.pais.map Int.toNat).sum
      have := psum_exact_dec h.pais i 3 (by omega) (by omega) (by omega)
      omega
    · have hr2 := (Option.some.inj hr).symm
      subst hr2
      show ((h.pais.set i (h.pais.getD i 0 - 3)).map Int.toNat).sum + 3
        ≤ (h.pais.map Int.toNat).sum
      have := psum_exact_dec h.pais i 3 (by omega) (by omega) (by omega)
      omega
    · exact ih (i + 1) r hr
    · have hr2 := (Option.some.inj hr).symm
      subst hr2
      push_neg at h4
      exact psum_three_dec h.pais i (by omega) (by omega) (by omega)
    · exact ih (i + 1) r hr

theorem tryPairGo_psum (h : ShantenHelper) :
    ∀ (f i : ℕ) (r : List ℕ × ℕ × ShantenHelper), tryPairGo h f i = some r →
      (r.2.2.pais.map Int.toNat).sum + 2 ≤ (h.pais.map Int.toNat).sum := by
  intro f
  induction f with
  | zero => intro i r hr; simp [tryPairGo] at hr
  | succ f ih =>
    intro i r hr
    simp only [tryPairGo] at hr
    split_ifs at hr with h1
    · have hr2 := (Option.some.inj hr).symm
      subst hr2
      show ((h.pais.set i (h.pais.getD i 0 - 2)).map Int.toNat).sum + 2
        ≤ (h.pais.map Int.toNat).sum
      have := psum_exact_dec h.pais i 2 (by omega) (by omega) (by omega)
      omega
    · exact ih (i + 1) r hr

theorem tryDaziGo_psum (h : ShantenHelper) :
    ∀ (f i : ℕ) (r : List ℕ × ℕ × ShantenHelper), tryDaziGo h f i = some r →
      (r.2.2.pais.map Int.toNat).sum + 2 ≤ (h.pais.map Int.toNat).sum := by
  intro f
  induction f with
  | zero => intro i r hr; simp [tryDaziGo] at hr
  | succ f ih =>
    intro i r hr
    simp only [tryDaziGo] at hr
    split_ifs at hr with h1 h2 h3 h4
    · exact ih (i + 1) r hr
    · have hr2 := (Option.some.inj hr).symm
      subst hr2
      exact psum_two_dec h.pais i (i + 1) (by omega) (by omega) (by omega)
    · have hr2 := (Option.some.inj hr).symm
      subst hr2
      exact psum_two_dec h.pais i (i + 2) (by omega) (by omega) (by omega)
    · exact ih (i + 1) r hr
    · exact ih (i + 1) r hr

theorem tryTake1Go_psum (h : ShantenHelper) :
    ∀ (f i : ℕ) (r : ℕ × ShantenHelper), tryTake1Go h f i = some r →
      (r.2.pais.map Int.toNat).sum + 1 ≤ (h.pais.map Int.toNat).sum := by
  intro f
  induction f with
  | zero => intro i r hr; simp [tryTake1Go] at hr
  | succ f ih =>
    intro i r hr
    simp only [tryTake1Go] at hr
    split_ifs at hr with h1 h2
    · exact ih (i + 1) r hr
    · have hr2 := (Option.some.inj hr).symm
      subst hr2
      show ((h.pais.set i (h.pais.getD i 0 - 2)).map Int.toNat).sum + 1
        ≤ (h.pais.map Int.toNat).sum
      exact psum_one_dec h.pais i 2 (by omega) (by omega) (by omega)
    · exact ih (i + 1) r hr

theorem try_take_2_psum (h : ShantenHelper) (i : ℕ) (r : List ℕ × ℕ × ShantenHelper)
    (hr : h.try_take_2 i = some r) :
    (r.2.2.pais.map Int.toNat).sum + 2 ≤ (h.pais.map Int.toNat).sum := by
  unfold ShantenHelper.try_take_2 at hr
  rcases hp : tryPairGo h (48 - i) i with _ | r2
  · rw [hp] at hr
    exact tryDaziGo_psum h (38 - i) i r hr
  · rw [hp] at hr
    cases Option.some.inj hr
    exact tryPairGo_psum h (48 - i) i r hp

theorem take_eye_psum (h : ShantenHelper) (p : ℕ) :
    ((h.take_eye p).pais.map Int.toNat).sum ≤ (h.pais.map Int.toNat).sum := by
  show ((h.pais.set (unify p) (h.pais.getD (unify p) 0 - 2)).map Int.toNat).sum
    ≤ (h.pais.map Int.toNat).sum
  exact psum_set_le h.pais (unify p) (h.pais.getD (unify p) 0 - 2) (by omega)

theorem next_not_zero_ge (h : ShantenHelper) (i : ℕ) (hi : i ≤ 48) :
    i ≤ h.next_not_zero i := by
  unfold ShantenHelper.next_not_zero
  rcases hf : (List.range' i (48 - i)).find? (fun j => decide (0 < h.pais.getD j 0))
    with _ | j
  · simp only [hf]
    exact hi
  · simp only [hf]
    have hm := List.mem_of_find?_eq_some hf
    have := List.mem_range'_1.1 hm
    omega

theorem tryTake3Go_idx_lt (h : ShantenHelper) :
    ∀ (f i : ℕ) (r : List ℕ × ℕ × ShantenHelper), tryTake3Go h f i = some r →
      r.2.1 < i + f := by
  intro f
  induction f with
  | zero => intro i r hr; simp [tryTake3Go] at hr
  | succ f ih =>
    intro i r hr
    simp only [tryTake3Go] at hr
    split_ifs at hr with h1 h2 h3 h4 h5
    · have := ih (i + 1) r hr; omega
    · have hr2 := (Option.some.inj hr).symm; subst hr2
      show i < i + (f + 1); omega
    · have hr2 := (Option.some.inj hr).symm; subst hr2
      show i < i + (f + 1); omega
    · have := ih (i + 1) r hr; omega
    · have hr2 := (Option.some.inj hr).symm; subst hr2
      show i < i + (f + 1); omega
    · have := ih (i + 1) r hr; omega

theorem next_not_zero_le48 (h : ShantenHelper) (i : ℕ) :
    h.next_not_zero i ≤ 48 := by
  unfold ShantenHelper.next_not_zero
  rcases hf : (List.range' i (48 - i)).find? (fun j => decide (0 < h.pais.getD j 0))
    with _ | j
  · simp only [hf]
    omega
  · simp only [hf]
    have hm := List.mem_of_find?_eq_some hf
    have := List.mem_range'_1.1 hm
    omega

theorem eyesOf_length_le (pais : List ℤ) : (eyesOf pais).length ≤ 48 := by
  unfold eyesOf
  have := List.length_filter_le
    (fun i => decide (2 ≤ pais.getD i 0) && paiValid i) (List.range 48)
  simpa using this

theorem singlesFold_some (n : ℕ) (b : ℕ) (k e m d : ℤ) (S : ℕ)
    (hfuel : 49 * S ≤ n)
    (IH : ∀ (hx : ShantenHelper) (bx : ℕ) (sx cmx : ℤ),
      49 * (hx.pais.map Int.toNat).sum < n →
      ∃ h2 s2 cm2, search_by_take_2 n hx bx sx cmx k e m d = some (h2, s2, cm2) ∧
        (h2.pais.map Int.toNat).sum ≤ (hx.pais.map Int.toNat).sum) :
    ∀ (l : List ℕ) (hh : ShantenHelper) (ss cc : ℤ),
      (hh.pais.map Int.toNat).sum ≤ S →
      ∃ h2 s2 cm2,
        l.foldl (singlesStep (search_by_take_2 n) b k e m d) (some (hh, ss, cc))
          = some (h2, s2, cm2) ∧ (h2.pais.map Int.toNat).sum ≤ S := by
  intro l
  induction l with
  | nil =>
    intro hh ss cc hS
    exact ⟨hh, ss, cc, rfl, hS⟩
  | cons a l ihl =>
    intro hh ss cc hS
    rw [List.foldl_cons]
    rcases ht1 : hh.try_take_1 a with _ | ⟨⟨pai, hh1⟩⟩
    · have hstep : singlesStep (search_by_take_2 n) b k e m d (some (hh, ss, cc)) a
          = some (hh, ss, cc) := by
        simp only [singlesStep, ht1]
      rw [hstep]
      exact ihl hh ss cc hS
    · have hps := tryTake1Go_psum hh (48 - a) a (pai, hh1) ht1
      simp only at hps
      obtain ⟨A, B, C, hrec, hA⟩ := IH hh1 (b + 1) ss cc (by omega)
      have hstep : singlesStep (search_by_take_2 n) b k e m d (some (hh, ss, cc)) a
          = some (A.rollback_pais [pai], B, C) := by
        simp only [singlesStep, ht1, hrec]
      rw [hstep]
      have hroll := rollback_psum A [pai]
      refine ihl (A.rollback_pais [pai]) B C ?_
      simp only [List.length_cons, List.length_nil] at hroll
      omega

theorem search2_some :
    ∀ (n : ℕ) (h : ShantenHelper) (b : ℕ) (s cm k e m d : ℤ),
      49 * (h.pais.map Int.toNat).sum < n →
      ∃ h2 s2 cm2, search_by_take_2 n h b s cm k e m d = some (h2, s2, cm2) ∧
        (h2.pais.map Int.toNat).sum ≤ (h.pais.map Int.toNat).sum := by
  intro n
  induction n with
  | zero => intro h b s cm k e m d hfuel; omega
  | succ n ih =>
    intro h b s cm k e m d hfuel
    simp only [search_by_take_2]
    split_ifs with hg1 hg2 hg3
    · exact ⟨h, s, cm, rfl, le_refl _⟩
    · exact ⟨h, s, cm, rfl, le_refl _⟩
    · exact ⟨h, _, _, rfl, le_refl _⟩
    · rcases htp : h.try_take_2 b with _ | ⟨⟨dazi, ni, h1⟩⟩
      · simp only [htp]
        exact singlesFold_some n b k e m d ((h.pais.map Int.toNat).sum) (by omega)
          (fun hx bx sx cmx hc => ih hx bx sx cmx k e m d hc)
          (List.range h.num_pais_rem.toNat) h s cm (le_refl _)
      · simp only [htp]
        have hps := try_take_2_psum h b (dazi, ni, h1) htp
        obtain ⟨hq1, hq2, hq3⟩ := try_take_2_effect h b (dazi, ni, h1) htp
        simp only at hps hq1 hq2 hq3
        obtain ⟨A, B, C, hrec, hA⟩ := ih h1 ni s cm k e m (d + 1) (by omega)
        simp only [hrec]
        have hroll := rollback_psum A dazi
        rw [hq3] at hroll
        obtain ⟨A2, B2, C2, hfold, hA2⟩ :=
          singlesFold_some n b k e m d ((h.pais.map Int.toNat).sum) (by omega)
            (fun hx bx sx cmx hc => ih hx bx sx cmx k e m d hc)
            (List.range (A.rollback_pais dazi).num_pais_rem.toNat)
            (A.rollback_pais dazi) B C (by omega)
        exact ⟨A2, B2, C2, hfold, hA2⟩

theorem search3_some :
    ∀ (n : ℕ) (h : ShantenHelper) (lvl : ℤ) (b : ℕ) (s cm k e m : ℤ),
      b ≤ 48 →
      49 * (h.pais.map Int.toNat).sum + (48 - b) + 2 ≤ n →
      ∃ h2 s2 cm2, search_by_take_3 n h lvl b s cm k e m = some (h2, s2, cm2) ∧
        (h2.pais.map Int.toNat).sum ≤ (h.pais.map Int.toNat).sum := by
  intro n
  induction n with
  | zero => intro h lvl b s cm k e m hb hfuel; omega
  | succ n ih =>
    intro h lvl b s cm k e m hb hfuel
    simp only [search_by_take_3]
    split_ifs with hg1
    · obtain ⟨A, B, C, hrec, hA⟩ := search2_some n h 0 s cm k e m 0 (by omega)
      exact ⟨A, B, C, hrec, hA⟩
    · push_neg at hg1
      obtain ⟨hb48, _⟩ := hg1
      rcases ht3 : h.try_take_3 b with _ | ⟨⟨meld, ni, h1⟩⟩
      · simp only [ht3]
        have hnge := next_not_zero_ge h (b + 1) (by omega)
        have hnle := next_not_zero_le48 h (b + 1)
        obtain ⟨A, B, C, hrec, hA⟩ :=
          ih h lvl (h.next_not_zero (b + 1)) s cm k e m hnle (by omega)
        exact ⟨A, B, C, hrec, hA⟩
      · simp only [ht3]
        have hps := tryTake3Go_psum h (48 - b) b (meld, ni, h1) ht3
        have hidx := tryTake3Go_idx_lt h (48 - b) b (meld, ni, h1) ht3
        obtain ⟨_, _, hlen3⟩ := tryTake3Go_effect h (48 - b) b (meld, ni, h1) ht3
        simp only at hps hidx hlen3
        obtain ⟨A, B, C, hrec, hA⟩ :=
          ih h1 (lvl + 1) ni s cm k e (m + 1) (by omega) (by omega)
        simp only [hrec]
        have hroll := rollback_psum A meld
        rw [hlen3] at hroll
        have hnge := next_not_zero_ge (A.rollback_pais meld) (b + 1) (by omega)
        have hnle := next_not_zero_le48 (A.rollback_pais meld) (b + 1)
        obtain ⟨A2, B2, C2, hrec2, hA2⟩ :=
          ih (A.rollback_pais meld) lvl ((A.rollback_pais meld).next_not_zero (b + 1))
            B C k e m hnle (by omega)
        exact ⟨A2, B2, C2, hrec2, by omega⟩

theorem eyesFold_some (fuel : ℕ) (k : ℤ) (S : ℕ)
    (hfuel : 49 * S + 39 ≤ fuel) :
    ∀ (l : List ℕ) (hh : ShantenHelper) (ss cc : ℤ),
      (hh.pais.map Int.toNat).sum + 2 * l.length ≤ S →
      ∃ h2 s2 cc2, l.foldl (eyeStep fuel k) (some (hh, ss, cc)) = some (h2, s2, cc2) ∧
        (h2.pais.map Int.toNat).sum ≤ S := by
  intro l
  induction l with
  | nil =>
    intro hh ss cc hS
    exact ⟨hh, ss, cc, rfl, by simpa using hS⟩
  | cons a l ihl =>
    intro hh ss cc hS
    rw [List.foldl_cons]
    have hte := take_eye_psum hh a
    simp only [List.length_cons] at hS
    obtain ⟨A, B, C, hrec, hA⟩ :=
      search3_some fuel (hh.take_eye a) 0 11 ss cc k 1 0 (by omega) (by omega)
    have hstep : eyeStep fuel k (some (hh, ss, cc)) a
        = some (A.rollback_pais [a, a], B, C) := by
      simp only [eyeStep, hrec]
    rw [hstep]
    have hroll := rollback_psum A [a, a]
    simp only [List.length_cons, List.length_nil] at hroll
    refine ihl (A.rollback_pais [a, a]) B C (by omega)

theorem get_normal_some (h : ShantenHelper) :
    ∃ r, h.get_normal_shanten (fuelFor h) = some r := by
  have hfuelval : fuelFor h = 49 * (h.pais.map Int.toNat).sum + 5000 := rfl
  unfold ShantenHelper.get_normal_shanten
  have hlen : (eyesOf h.pais).length ≤ 48 := eyesOf_length_le h.pais
  obtain ⟨h4, s4, c4, hae, hA4⟩ :=
    eyesFold_some (fuelFor h) (Int.tdiv (h.num_pais_rem - 2) 3)
      ((h.pais.map Int.toNat).sum + 96) (by omega)
      (eyesOf h.pais) h 8 0 (by omega)
  simp only [hae]
  obtain ⟨A, B, C, hfin, _⟩ :=
    search3_some (fuelFor h) h4 0 11 s4 c4 (Int.tdiv (h.num_pais_rem - 2) 3) 0 0
      (by omega) (by omega)
  simp only [hfin]
  exact ⟨(A, B), rfl⟩

/-- C8: the standard-shape branch-and-bound search terminates on every
well-formed input multiset of at most 14 tiles over the 34 kinds: the
fueled embedding of the mutually recursive complete-group and
partial-group phases, including the per-single recursion, returns a
value (never exhausts the fuel budget fuelFor, which is computed from
the positive part of the count array). -/
theorem c8_search_terminates (tiles : List ℕ) (hlen : tiles.length ≤ 14)
    (hvalid : ∀ p ∈ tiles, paiValid p = true) :
    ((ShantenHelper.new tiles).get_normal_shanten
      (fuelFor (ShantenHelper.new tiles))).isSome := by
  obtain ⟨r, hr⟩ := get_normal_some (ShantenHelper.new tiles)
  rw [hr]
  rfl

/-- Witness for C8 at a concrete two-tile multiset. -/
theorem c8_search_terminates_witness :
    ((ShantenHelper.new [41, 15]).get_normal_shanten
      (fuelFor (ShantenHelper.new [41, 15]))).isSome :=
  c8_search_terminates [41, 15] (by decide) (by decide)
